import Mathlib

/-!
Shallow embedding of the grain-distribution simulation engine of this
repository (src/simulation_py.py, with the near-identical inline copy in
src/simulation.py noted where the two differ).

Quantities are embedded as exact rationals (ℚ); the Python source uses
floats with an explicit tolerance of 1e-6, which is representable exactly
in ℚ.  Python dictionaries keyed by integer ids become total functions
`Nat → ℚ` updated pointwise (missing keys read as the dictionary default
used at the corresponding source line).  The round-robin pre-stocking
loops are written with an explicit fuel argument; every iteration of the
source loop either consumes a trip or removes a candidate, so fuel
`trips + candidates.length + 1` reproduces the source behaviour exactly,
except in the corner where the loop body neither delivers nor removes a
candidate (possible only when a quantity lands exactly on the 1e-6
tolerance), where the Python source does not terminate at all and the
embedding returns the current state.
-/

namespace FCI

/-- Pointwise update of an id-keyed map, mirroring a Python dict write. -/
def upd {β : Type} (s : Nat → β) (k : Nat) (v : β) : Nat → β :=
  fun j => if j = k then v else s j

/-- The tolerance `1e-6` used throughout src/simulation_py.py. -/
def eps : ℚ := 1 / 1000000

/-- Inputs of the CG→LG (source tier) phase: the LG id list (iteration
order of the `stock` dict built from `req_pivot.index`), the pivoted
daily-requirement table (`fillna(0)` makes it total), the capacity map,
and the constants that src/simulation_py.py lines 32-35 fix to
30 / 11.5 / 30 / 30. -/
structure CGConfig where
  lgs : List Nat
  req : Nat → Int → ℚ
  capacity : Nat → ℚ
  numVehicles : Nat
  vehicleCapacity : ℚ
  totalDays : Nat
  maxPreDays : Nat

/-- The concrete configuration used by `run_simulation`
(src/simulation_py.py lines 32-35: 30 vehicles of 11.5 t, a 30-day
horizon, at most 30 pre-dispatch days). -/
def stdCG (lgs : List Nat) (req : Nat → Int → ℚ) (capacity : Nat → ℚ) : CGConfig :=
  ⟨lgs, req, capacity, 30, 23/2, 30, 30⟩

/-- `[a, a+1, …, b]` as a list of integers (a Python `range(a, b+1)`). -/
def intRange (a b : Int) : List Int :=
  (List.range (b + 1 - a).toNat).map (fun i : Nat => a + (i : Int))

/-- `free_room` (src/simulation_py.py line 36). -/
def freeRoom (c : CGConfig) (s : Nat → ℚ) (lg : Nat) : ℚ :=
  max 0 (c.capacity lg - s lg)

/-- One LG of the serve step of `can_meet_all`
(src/simulation_py.py lines 46-51): deliver `t` whole vehicle-loads,
where `t = min(trips_left, ceil(deliver / VEHICLE_CAPACITY))`, and
return the updated stock and remaining trips. -/
def dryServeStep (c : CGConfig) (day : Int) (lg : Nat) (s : Nat → ℚ) (trips : Nat) :
    (Nat → ℚ) × Nat :=
  let need : ℚ := max 0 (c.req lg day - s lg)
  let room : ℚ := freeRoom c s lg
  let deliver : ℚ := min need room
  let t : Nat := min trips (Int.toNat ⌈deliver / c.vehicleCapacity⌉)
  (upd s lg (s lg + (t : ℚ) * c.vehicleCapacity), trips - t)

/-- Serve step of `can_meet_all` (src/simulation_py.py lines 44-53):
whole vehicle-loads (`t * VEHICLE_CAPACITY`) are added, and the run
aborts (`return False`, here `none`) the moment a post-delivery stock is
below the day's requirement beyond the 1e-6 tolerance. -/
def dryServe (c : CGConfig) (day : Int) :
    List Nat → (Nat → ℚ) × Nat → Option ((Nat → ℚ) × Nat)
  | [], st => some st
  | lg :: rest, (s, trips) =>
    match dryServeStep c day lg s trips with
    | (s2, trips2) =>
      if s2 lg + eps < c.req lg day then none
      else dryServe c day rest (s2, trips2)

/-- Total future requirement of `lg` strictly after `day`
(src/simulation_py.py lines 57-58: `sum(req_pivot.at[lg, d] for d in
range(max(1, day+1), TOTAL_DAYS+1))`). -/
def futureReq (c : CGConfig) (lg : Nat) (day : Int) : ℚ :=
  ((intRange (max 1 (day + 1)) (c.totalDays : Int)).map (fun d => c.req lg d)).sum

/-- Round-robin pre-stocking loop of `can_meet_all`
(src/simulation_py.py lines 62-75).  Note line 69 adds a full
`VEHICLE_CAPACITY` to the stock even when `deliver` was clipped by the
remaining room, so the dry run can exceed an LG's capacity.
An iteration that neither delivers nor removes its candidate (possible
only when a quantity lands exactly on the 1e-6 tolerance) just advances
`idx`; `stall` counts consecutive such iterations, and once every
remaining candidate has stalled in a row the source loop would cycle
forever without changing state, so the embedding exits there. -/
def dryPreLoop (c : CGConfig) :
    Nat → (Nat → ℚ) → (Nat → ℚ) → Nat → List Nat → Nat → Nat → (Nat → ℚ)
  | 0, s, _, _, _, _, _ => s
  | fuel + 1, s, fu, trips, cands, idx, stall =>
    if trips = 0 ∨ cands = [] then s
    else
      let lg := cands.getD (idx % cands.length) 0
      let deliver := min c.vehicleCapacity (min (fu lg) (freeRoom c s lg))
      if eps < deliver then
        let s2 := upd s lg (s lg + c.vehicleCapacity)
        let fu2 := upd fu lg (max 0 (fu lg - c.vehicleCapacity))
        if fu2 lg < eps ∨ freeRoom c s2 lg < eps then
          dryPreLoop c fuel s2 fu2 (trips - 1) (cands.erase lg) idx 0
        else
          dryPreLoop c fuel s2 fu2 (trips - 1) cands (idx + 1) 0
      else
        if fu lg < eps ∨ freeRoom c s lg < eps then
          dryPreLoop c fuel s fu trips (cands.erase lg) idx 0
        else if stall + 1 < cands.length then
          dryPreLoop c fuel s fu trips cands (idx + 1) (stall + 1)
        else
          s

/-- Fuel that covers the pre-stock loop: every delivery consumes a trip,
every removal shortens the candidate list, and at most
`candidates.length` consecutive iterations can pass without either. -/
def preFuel (trips len : Nat) : Nat :=
  (trips + len + 1) * (len + 1)

/-- Pre-stock step of `can_meet_all` (src/simulation_py.py lines 55-75):
snapshot the unmet future demand, build the candidate list, then run the
round-robin loop. -/
def dryPre (c : CGConfig) (day : Int) (s : Nat → ℚ) (trips : Nat) : Nat → ℚ :=
  let fu : Nat → ℚ := fun lg => max 0 (futureReq c lg day - s lg)
  let cands := c.lgs.filter (fun lg => decide (eps < fu lg ∧ eps < freeRoom c s lg))
  dryPreLoop c (preFuel trips cands.length) s fu trips cands 0 0

/-- Consume step (src/simulation_py.py lines 77-79 and 135-137):
subtract the day's requirement from every LG, floored at zero. -/
def consume (c : CGConfig) (day : Int) (s : Nat → ℚ) : Nat → ℚ :=
  c.lgs.foldl (fun t lg => upd t lg (max 0 (t lg - c.req lg day))) s

/-- One day of the dry run of `can_meet_all`
(src/simulation_py.py lines 41-79). -/
def dryDay (c : CGConfig) (day : Int) (s : Nat → ℚ) : Option (Nat → ℚ) :=
  match (if 1 ≤ day then dryServe c day c.lgs (s, c.numVehicles)
         else some (s, c.numVehicles)) with
  | none => none
  | some (s1, trips1) =>
    let s2 := if 0 < trips1 then dryPre c day s1 trips1 else s1
    some (if 1 ≤ day then consume c day s2 else s2)

/-- The day loop of `can_meet_all` over an explicit list of days. -/
def dryDays (c : CGConfig) : List Int → (Nat → ℚ) → Option (Nat → ℚ)
  | [], s => some s
  | d :: ds, s =>
    match dryDay c d s with
    | none => none
    | some s2 => dryDays c ds s2

/-- The simulated days `range(1 - pre_days, TOTAL_DAYS + 1)`. -/
def simDaysList (c : CGConfig) (preDays : Nat) : List Int :=
  intRange (1 - (preDays : Int)) (c.totalDays : Int)

/-- `can_meet_all` (src/simulation_py.py lines 38-80): the dry run from
zero stock at every LG succeeds over the whole horizon. -/
def canMeetAll (c : CGConfig) (preDays : Nat) : Bool :=
  (dryDays c (simDaysList c preDays) (fun _ => 0)).isSome

/-- The linear search `for x in range(MAX_PRE_DAYS + 1)` with early
`break` on the first `x` whose predicate holds. -/
def searchLoop (p : Nat → Bool) : Nat → Nat → Option Nat
  | _, 0 => none
  | x, fuel + 1 => if p x then some x else searchLoop p (x + 1) fuel

/-- The feasibility search as written in src/simulation.py lines 73-78:
first satisfying offset, or `none` where that copy raises
`RuntimeError`. -/
def findPreDaysOpt (c : CGConfig) : Option Nat :=
  searchLoop (canMeetAll c) 0 (c.maxPreDays + 1)

/-- The feasibility search as written in src/simulation_py.py lines
81-86: `pre_days` is initialised to 0 before the loop, so when no offset
satisfies `can_meet_all` the value 0 is silently used. -/
def findPreDays (c : CGConfig) : Nat :=
  (findPreDaysOpt c).getD 0

/-- A CG→LG transfer record (src/simulation_py.py line 103:
`Dispatch_Day, Vehicle_ID, LG_ID, Quantity_tons`). -/
structure CGRec where
  day : Int
  vid : Nat
  lgId : Nat
  qty : ℚ
deriving DecidableEq, Repr

/-- Stable insertion keeping the list in descending key order; an
element is placed after every earlier element with an equal or larger
key, which is exactly the order Python's stable `sorted`/`sort` with a
descending key produces. -/
def insertDescBy {α : Type} (key : α → ℚ) (x : α) : List α → List α
  | [] => [x]
  | y :: ys => if key y < key x then x :: y :: ys else y :: insertDescBy key x ys

/-- Stable descending sort by a rational key. -/
def sortDescBy {α : Type} (key : α → ℚ) (l : List α) : List α :=
  l.foldl (fun acc x => insertDescBy key x acc) []

/-- Inner while loop of the production serve step
(src/simulation_py.py lines 100-106): issue loads of
`min(deliver, VEHICLE_CAPACITY)` until the delivery is complete or the
trip budget is exhausted, popping sequential vehicle ids. -/
def serveLoop (c : CGConfig) (day : Int) (lg : Nat) :
    Nat → List Nat → (Nat → ℚ) → ℚ → List CGRec →
    ((Nat → ℚ) × Nat × List Nat × List CGRec)
  | 0, vids, s, _, recs => (s, 0, vids, recs)
  | trips + 1, vids, s, deliver, recs =>
    if eps < deliver then
      match vids with
      | [] => (s, trips + 1, [], recs)
      | vid :: vrest =>
        let qty := min deliver c.vehicleCapacity
        serveLoop c day lg trips vrest (upd s lg (s lg + qty)) (deliver - qty)
          (recs ++ [⟨day, vid, lg, qty⟩])
    else (s, trips + 1, vids, recs)

/-- Outer for loop of the production serve step
(src/simulation_py.py lines 96-108), with the `break` when the trip
budget hits zero. -/
def serveDayGo (c : CGConfig) (day : Int) :
    List Nat → (Nat → ℚ) → Nat → List Nat → List CGRec →
    ((Nat → ℚ) × Nat × List Nat × List CGRec)
  | [], s, trips, vids, recs => (s, trips, vids, recs)
  | lg :: rest, s, trips, vids, recs =>
    let need := max 0 (c.req lg day - s lg)
    let deliver := min need (freeRoom c s lg)
    match serveLoop c day lg trips vids s deliver recs with
    | (s2, trips2, vids2, recs2) =>
      if trips2 = 0 then (s2, 0, vids2, recs2)
      else serveDayGo c day rest s2 trips2 vids2 recs2

/-- Production serve step (src/simulation_py.py lines 95-108): LGs are
processed in descending order of `req - stock` (the sort key on line 96,
computed from the stock at the start of the step). -/
def serveDay (c : CGConfig) (day : Int) (s : Nat → ℚ) (trips : Nat) (vids : List Nat)
    (recs : List CGRec) : ((Nat → ℚ) × Nat × List Nat × List CGRec) :=
  serveDayGo c day (sortDescBy (fun lg => c.req lg day - s lg) c.lgs) s trips vids recs

/-- Round-robin pre-stocking loop of the production run
(src/simulation_py.py lines 119-133): unlike the dry loop it adds only
`qty = min(deliver, VEHICLE_CAPACITY)` to the stock and emits a record.
Stalling is handled as in `dryPreLoop`. -/
def prodPreLoop (c : CGConfig) (day : Int) :
    Nat → (Nat → ℚ) → (Nat → ℚ) → Nat → List Nat → Nat → Nat → List Nat → List CGRec →
    ((Nat → ℚ) × List Nat × List CGRec)
  | 0, s, _, _, _, _, _, vids, recs => (s, vids, recs)
  | fuel + 1, s, fu, trips, cands, idx, stall, vids, recs =>
    if trips = 0 ∨ cands = [] then (s, vids, recs)
    else
      let lg := cands.getD (idx % cands.length) 0
      let deliver := min c.vehicleCapacity (min (fu lg) (freeRoom c s lg))
      if eps < deliver then
        match vids with
        | [] => (s, [], recs)
        | vid :: vrest =>
          let qty := min deliver c.vehicleCapacity
          let s2 := upd s lg (s lg + qty)
          let fu2 := upd fu lg (max 0 (fu lg - qty))
          let recs2 := recs ++ [⟨day, vid, lg, qty⟩]
          if fu2 lg < eps ∨ freeRoom c s2 lg < eps then
            prodPreLoop c day fuel s2 fu2 (trips - 1) (cands.erase lg) idx 0 vrest recs2
          else
            prodPreLoop c day fuel s2 fu2 (trips - 1) cands (idx + 1) 0 vrest recs2
      else
        if fu lg < eps ∨ freeRoom c s lg < eps then
          prodPreLoop c day fuel s fu trips (cands.erase lg) idx 0 vids recs
        else if stall + 1 < cands.length then
          prodPreLoop c day fuel s fu trips cands (idx + 1) (stall + 1) vids recs
        else
          (s, vids, recs)

/-- Production pre-stock step (src/simulation_py.py lines 110-133). -/
def prodPre (c : CGConfig) (day : Int) (s : Nat → ℚ) (trips : Nat) (vids : List Nat)
    (recs : List CGRec) : ((Nat → ℚ) × List Nat × List CGRec) :=
  let fu : Nat → ℚ := fun lg => max 0 (futureReq c lg day - s lg)
  let cands := c.lgs.filter (fun lg => decide (eps < fu lg ∧ eps < freeRoom c s lg))
  prodPreLoop c day (preFuel trips cands.length) s fu trips cands 0 0 vids recs

/-- State of the production CG→LG run: the LG stock map and the
append-only transfer list. -/
structure CGState where
  stock : Nat → ℚ
  recs : List CGRec

/-- One day of the production CG→LG run
(src/simulation_py.py lines 91-137): reset the trip budget and the
vehicle-id list, serve (day ≥ 1 only), pre-stock with the remaining
budget, consume (day ≥ 1 only). -/
def prodDay (c : CGConfig) (st : CGState) (day : Int) : CGState :=
  let vids0 := (List.range c.numVehicles).map (fun i => i + 1)
  match (if 1 ≤ day then serveDay c day st.stock c.numVehicles vids0 st.recs
         else (st.stock, c.numVehicles, vids0, st.recs)) with
  | (s1, trips1, vids1, recs1) =>
    match (if 0 < trips1 then prodPre c day s1 trips1 vids1 recs1
           else (s1, vids1, recs1)) with
    | (s2, _, recs2) => ⟨if 1 ≤ day then consume c day s2 else s2, recs2⟩

/-- The production CG→LG run over the days `1 - preDays … totalDays`,
from zero stock (src/simulation_py.py lines 88-137). -/
def prodCG (c : CGConfig) (preDays : Nat) : CGState :=
  (simDaysList c preDays).foldl (prodDay c) ⟨fun _ => 0, []⟩

/-- Day-end states of the production CG→LG run (the initial state
followed by one state per simulated day). -/
def prodCGStates (c : CGConfig) (preDays : Nat) : List CGState :=
  (simDaysList c preDays).scanl (prodDay c) ⟨fun _ => 0, []⟩

/-- The CG→LG phase of `run_simulation` end to end: search for the
offset, then run the production allocator with it
(src/simulation_py.py lines 81-138). -/
def runCG (c : CGConfig) : CGState :=
  prodCG c (findPreDays c)

/-- One row of the FPS registry after the sheet-level preparation of
src/simulation_py.py lines 144-154: the linked LG is already resolved to
an id (the name→id map on lines 153-154 is spreadsheet plumbing), the
lead time is still optional (filled from settings on line 150). -/
structure FPSRow where
  fid : Nat
  monthlyDemand : ℚ
  leadTime : Option ℚ
  maxCap : ℚ
  lgId : Nat
deriving DecidableEq, Repr

/-- One row of the vehicle registry (src/simulation_py.py lines
155-162): capacity still optional (filled from settings on lines
160-162), the eligible-LG list already parsed from the comma string. -/
structure VehicleRow where
  vid : Nat
  capacityOpt : Option ℚ
  mappedLGs : List Nat
deriving DecidableEq, Repr

/-- One row of the LG registry as used by the LG→FPS phase
(src/simulation_py.py line 166). -/
structure LGRow where
  lgId : Nat
  initAlloc : ℚ
deriving DecidableEq, Repr

/-- Inputs of the LG→FPS (outlet tier) phase, with the settings values
read on src/simulation_py.py lines 149 and 160-164. -/
structure FPSConfig where
  defaultLead : ℚ
  defaultVCap : ℚ
  days : Nat
  maxTrips : Nat
  lgRows : List LGRow
  fps : List FPSRow
  vehicles : List VehicleRow

/-- `Daily_Demand_tons = Monthly_Demand_tons / 30`
(src/simulation_py.py line 148). -/
def dailyDemand (r : FPSRow) : ℚ :=
  r.monthlyDemand / 30

/-- `Reorder_Threshold_tons = Daily_Demand_tons * Lead_Time_days`, with
the missing lead time replaced by the configured default
(src/simulation_py.py lines 149-151). -/
def threshold (c : FPSConfig) (r : FPSRow) : ℚ :=
  dailyDemand r * r.leadTime.getD c.defaultLead

/-- A vehicle's capacity, defaulting to the configured standard
(src/simulation_py.py lines 160-162). -/
def vcapOf (c : FPSConfig) (v : VehicleRow) : ℚ :=
  v.capacityOpt.getD c.defaultVCap

/-- An LG→FPS transfer record (src/simulation_py.py lines 202-208). -/
structure LGRec where
  day : Nat
  vid : Nat
  lgId : Nat
  fid : Nat
  qty : ℚ
deriving DecidableEq, Repr

/-- A stock snapshot row (src/simulation_py.py lines 213-226);
`isLG = true` stands for `Entity_Type = "LG"`, `false` for `"FPS"`. -/
structure SnapRec where
  day : Nat
  isLG : Bool
  eid : Nat
  level : ℚ
deriving DecidableEq, Repr

/-- An outstanding need `(urgency, fid, lgid, need_qty)`
(src/simulation_py.py line 187). -/
structure Need where
  urg : ℚ
  fid : Nat
  lgId : Nat
  qty : ℚ
deriving DecidableEq, Repr

/-- Initial LG stock map `dict(zip(lgs["LG_ID"],
lgs["Initial_Allocation_tons"]))` (src/simulation_py.py line 166);
absent ids read as the 0.0 default of `lg_stock.get(lgid, 0.0)`. -/
def initLG (c : FPSConfig) : Nat → ℚ :=
  c.lgRows.foldl (fun s r => upd s r.lgId r.initAlloc) (fun _ => 0)

/-- Daily FPS consumption (src/simulation_py.py lines 172-174). -/
def consumeFPS (c : FPSConfig) (fs : Nat → ℚ) : Nat → ℚ :=
  c.fps.foldl (fun t r => upd t r.fid (max 0 (t r.fid - dailyDemand r))) fs

/-- One row of the need computation
(src/simulation_py.py lines 177-187): an outlet at or below threshold
with a positive deliverable quantity contributes
`(urgency, fid, lgid, need_qty)`, where the urgency divides by the daily
demand with no guard against a zero divisor (line 186; Python raises
`ZeroDivisionError` there, division in ℚ is total). -/
def needStep (c : FPSConfig) (ls fs : Nat → ℚ) (acc : List Need) (r : FPSRow) : List Need :=
  let cur := fs r.fid
  if cur ≤ threshold c r then
    let needQty := min (r.maxCap - cur) (ls r.lgId)
    if 0 < needQty then
      acc ++ [⟨(threshold c r - cur) / dailyDemand r, r.fid, r.lgId, needQty⟩]
    else acc
  else acc

/-- Need computation (src/simulation_py.py lines 175-187). -/
def computeNeeds (c : FPSConfig) (ls fs : Nat → ℚ) : List Need :=
  c.fps.foldl (needStep c ls fs) []

/-- Candidate vehicles for a need (src/simulation_py.py lines 192-193):
route includes the LG and the trip counter is below the cap. -/
def dispCands (c : FPSConfig) (tr : Nat → Nat) (lgId : Nat) : List VehicleRow :=
  c.vehicles.filter (fun v => decide (lgId ∈ v.mappedLGs) && decide (tr v.vid < c.maxTrips))

/-- Vehicle choice among the candidates
(src/simulation_py.py lines 194-197): none when no candidate, else the
first shared-route candidate (`len(mapped) > 1`) when one exists,
else the first candidate. -/
def dispChoose : List VehicleRow → Option VehicleRow
  | [] => none
  | cv :: rest =>
    some (match (cv :: rest).filter (fun v => decide (1 < v.mappedLGs.length)) with
      | sv :: _ => sv
      | [] => cv)

/-- Dispatch loop over the ranked needs
(src/simulation_py.py lines 191-211): filter vehicles by route and trip
cap, prefer the first shared-route vehicle, load
`min(capacity, need, lg stock)`, skip non-positive loads, and mutate the
two stock maps and the chosen vehicle's trip counter. -/
def dispatchNeeds (c : FPSConfig) (day : Nat) :
    List Need → (Nat → ℚ) → (Nat → ℚ) → (Nat → Nat) → List LGRec →
    ((Nat → ℚ) × (Nat → ℚ) × (Nat → Nat) × List LGRec)
  | [], ls, fs, tr, recs => (ls, fs, tr, recs)
  | n :: rest, ls, fs, tr, recs =>
    match dispChoose (dispCands c tr n.lgId) with
    | none => dispatchNeeds c day rest ls fs tr recs
    | some chosen =>
      let qty := min (vcapOf c chosen) (min n.qty (ls n.lgId))
      if qty ≤ 0 then dispatchNeeds c day rest ls fs tr recs
      else
        dispatchNeeds c day rest (upd ls n.lgId (ls n.lgId - qty))
          (upd fs n.fid (fs n.fid + qty)) (upd tr chosen.vid (tr chosen.vid + 1))
          (recs ++ [⟨day, chosen.vid, n.lgId, n.fid, qty⟩])

/-- State of the LG→FPS run; `trips` holds the per-vehicle counters of
the current day (reset at each day's start,
src/simulation_py.py line 189). -/
structure FPSState where
  lstock : Nat → ℚ
  fstock : Nat → ℚ
  trips : Nat → Nat
  recs : List LGRec
  snaps : List SnapRec

/-- One day of the LG→FPS dispatcher
(src/simulation_py.py lines 171-226): consume, compute needs, rank by
descending urgency (the stable `needs.sort(reverse=True)` of line 188),
zero the trip counters, dispatch, snapshot. -/
def fpsDay (c : FPSConfig) (st : FPSState) (day : Nat) : FPSState :=
  let fs1 := consumeFPS c st.fstock
  let needs := sortDescBy Need.urg (computeNeeds c st.lstock fs1)
  match dispatchNeeds c day needs st.lstock fs1 (fun _ => 0) st.recs with
  | (ls2, fs2, tr2, recs2) =>
    let snaps2 := st.snaps ++ c.lgRows.map (fun r => ⟨day, true, r.lgId, ls2 r.lgId⟩)
      ++ c.fps.map (fun r => ⟨day, false, r.fid, fs2 r.fid⟩)
    ⟨ls2, fs2, tr2, recs2, snaps2⟩

/-- The simulated days `range(1, days + 1)` of the LG→FPS phase. -/
def fpsDaysList (c : FPSConfig) : List Nat :=
  (List.range c.days).map (fun i => i + 1)

/-- Initial state of the LG→FPS phase: LG stocks seeded from the
initial-allocation field, every FPS at zero
(src/simulation_py.py lines 166-169). -/
def fpsInit (c : FPSConfig) : FPSState :=
  ⟨initLG c, fun _ => 0, fun _ => 0, [], []⟩

/-- The full LG→FPS run (src/simulation_py.py lines 171-228). -/
def runFPS (c : FPSConfig) : FPSState :=
  (fpsDaysList c).foldl (fpsDay c) (fpsInit c)

/-- Day-end states of the LG→FPS run (initial state first). -/
def fpsStates (c : FPSConfig) : List FPSState :=
  (fpsDaysList c).scanl (fpsDay c) (fpsInit c)

/-- The three output tables of `run_simulation`
(src/simulation_py.py line 231): source-tier transfers, outlet-tier
transfers, stock snapshots. -/
def runSim (c : CGConfig) (f : FPSConfig) : List CGRec × List LGRec × List SnapRec :=
  ((runCG c).recs, (runFPS f).recs, (runFPS f).snaps)

/-! ### Trace variant of the dry run

Modelled from the spec: the spec describes the dry mode as running the
allocator's decision logic over the whole horizon and calling an offset
feasible when every day ≥ 1 ends the serve step with each regional
point's post-delivery stock covering that day's requirement (within the
ε tolerance).  `dryServeT`/`dryDayT`/`dryDaysT` run the same state
transitions as `dryServe`/`dryDay`/`dryDays` but never abort, instead
accumulating the conjunction of all per-day per-LG coverage checks, so
that `dryCovers` expresses the spec's "never fails to fully cover a
day's requirement" directly. -/

/-- Non-aborting serve step: same deliveries as `dryServe`, the flag
collects every coverage check. -/
def dryServeT (c : CGConfig) (day : Int) :
    List Nat → (Nat → ℚ) × Nat → ((Nat → ℚ) × Nat) × Bool
  | [], st => (st, true)
  | lg :: rest, (s, trips) =>
    match dryServeStep c day lg s trips with
    | (s2, trips2) =>
      match dryServeT c day rest (s2, trips2) with
      | (st2, ok2) => (st2, (!decide (s2 lg + eps < c.req lg day)) && ok2)

/-- Non-aborting dry day: same state as `dryDay`, plus the day's
coverage flag. -/
def dryDayT (c : CGConfig) (day : Int) (s : Nat → ℚ) : (Nat → ℚ) × Bool :=
  match (if 1 ≤ day then dryServeT c day c.lgs (s, c.numVehicles)
         else ((s, c.numVehicles), true)) with
  | ((s1, trips1), ok) =>
    let s2 := if 0 < trips1 then dryPre c day s1 trips1 else s1
    ((if 1 ≤ day then consume c day s2 else s2), ok)

/-- Non-aborting dry run over a day list, conjoining all day flags. -/
def dryDaysT (c : CGConfig) : List Int → (Nat → ℚ) → (Nat → ℚ) × Bool
  | [], s => (s, true)
  | d :: ds, s =>
    match dryDayT c d s with
    | (s2, ok) =>
      match dryDaysT c ds s2 with
      | (s3, ok2) => (s3, ok && ok2)

/-- The spec-side feasibility predicate: the dry run from zero stock
covers every day's requirement over the whole horizon. -/
def dryCovers (c : CGConfig) (preDays : Nat) : Bool :=
  (dryDaysT c (simDaysList c preDays) (fun _ => 0)).2

/-- The `Max_Capacity_tons` column as an id-keyed map (the same
dict-of-rows reading used for stocks); absent ids read as 0. -/
def fpsMaxCap (c : FPSConfig) : Nat → ℚ :=
  c.fps.foldl (fun m r => upd m r.fid r.maxCap) (fun _ => 0)

/-- Total quantity shipped to the outlets of one LG over a transfer
list. -/
def shippedTo (recs : List LGRec) (lg : Nat) : ℚ :=
  ((recs.filter (fun r => decide (r.lgId = lg))).map LGRec.qty).sum

/-! ### Concrete instances used by counterexamples and witnesses -/

/-- An infeasible input for the standard 30-day configuration: one LG
with storage capacity 0 and a requirement of 1 t on day 1.  No
pre-dispatch offset can ever cover day 1, because nothing can be
delivered into zero room. -/
def K0 : CGConfig :=
  stdCG [1] (fun lg d => if lg = 1 ∧ d = 1 then 1 else 0) (fun _ => 0)

/-- One LG of capacity 1, requirement 1 t on day 1, one-day horizon:
the dry serve step delivers a whole 11.5 t vehicle load for a 1 t need,
overshooting the capacity. -/
def K4 : CGConfig :=
  ⟨[1], (fun lg d => if lg = 1 ∧ d = 1 then 1 else 0), (fun _ => 1), 30, 23/2, 1, 30⟩

/-- One LG of capacity 100, requirement 1 t on day 1, one-day horizon:
feasible at offset 0; the dry run delivers a whole vehicle load where
the production run delivers exactly 1 t. -/
def K2 : CGConfig :=
  ⟨[1], (fun lg d => if lg = 1 ∧ d = 1 then 1 else 0), (fun _ => 100), 30, 23/2, 1, 30⟩

/-- A trivially feasible configuration (no requirement at all) with a
short horizon, used to instantiate hypotheses of general theorems. -/
def Kw : CGConfig :=
  ⟨[1], (fun _ _ => 0), (fun _ => 5), 2, 23/2, 1, 1⟩

/-- Scenario D of the spec: outlet 11 with daily demand 10 t, lead time
3 days (threshold 30 t); outlet 12 with daily demand 10 t, lead time 5
days (threshold 50 t); both linked to LG 1 (1000 t allocated); one
shared vehicle (id 7, capacity 50, routes to LGs 1 and 2); 1 trip per
vehicle per day. -/
def F5 : FPSConfig :=
  ⟨3, 23/2, 1, 1,
   [⟨1, 1000⟩, ⟨2, 500⟩],
   [⟨11, 300, some 3, 100, 1⟩, ⟨12, 300, some 5, 100, 1⟩],
   [⟨7, some 50, [1, 2]⟩]⟩

/-- A post-consumption FPS stock state for Scenario D: outlet 11 at
20 t (urgency (30-20)/10 = 1 day), outlet 12 at 50 t (exactly at
threshold, 5 days of cover, urgency 0). -/
def fsW : Nat → ℚ :=
  fun j => if j = 11 then 20 else if j = 12 then 50 else 0

/-- An outlet with zero monthly (hence zero daily) demand, stock 0 at
its threshold 0, positive deliverable quantity (max capacity 50,
LG stock 10): the urgency computation divides by zero. -/
def F8 : FPSConfig :=
  ⟨3, 23/2, 1, 1, [⟨1, 10⟩], [⟨21, 0, some 3, 50, 1⟩], [⟨7, some 50, [1]⟩]⟩

/-! ## Basic lemmas about the embedding's building blocks -/

theorem upd_self {β : Type} (s : Nat → β) (k : Nat) (v : β) : upd s k v k = v := by
  simp [upd]

theorem upd_ne {β : Type} (s : Nat → β) (k : Nat) (v : β) {j : Nat} (h : j ≠ k) :
    upd s k v j = s j := by
  simp [upd, h]

theorem mem_intRange {a b d : Int} : d ∈ intRange a b ↔ a ≤ d ∧ d ≤ b := by
  simp only [intRange, List.mem_map, List.mem_range]
  constructor
  · rintro ⟨i, hi, rfl⟩
    omega
  · intro h
    exact ⟨(d - a).toNat, by omega, by omega⟩

theorem intRange_append {a c b : Int} (h1 : a ≤ c + 1) (h2 : c ≤ b) :
    intRange a b = intRange a c ++ intRange (c + 1) b := by
  unfold intRange
  have hm : (b + 1 - a).toNat = (c + 1 - a).toNat + (b - c).toNat := by omega
  have hn : (b + 1 - (c + 1)).toNat = (b - c).toNat := by omega
  rw [hm, List.range_add, List.map_append, List.map_map, hn]
  congr 1
  apply List.map_congr_left
  intro x hx
  simp only [Function.comp_apply]
  omega

theorem searchLoop_none {p : Nat → Bool} :
    ∀ fuel x, searchLoop p x fuel = none → ∀ y, x ≤ y → y < x + fuel → p y = false := by
  intro fuel
  induction fuel with
  | zero => intro x _ y h1 h2; omega
  | succ n ih =>
    intro x h y h1 h2
    rw [searchLoop] at h
    by_cases hp : p x
    · simp [hp] at h
    · simp only [hp, if_false, Bool.false_eq_true] at h
      rcases Nat.eq_or_lt_of_le h1 with rfl | hlt
      · exact Bool.eq_false_iff.mpr hp
      · exact ih (x + 1) h y hlt (by omega)

theorem searchLoop_none_of_all {p : Nat → Bool} (h : ∀ y, p y = false) :
    ∀ fuel x, searchLoop p x fuel = none := by
  intro fuel
  induction fuel with
  | zero => intro x; rfl
  | succ n ih => intro x; rw [searchLoop, h x]; simpa using ih (x + 1)

theorem searchLoop_some {p : Nat → Bool} :
    ∀ fuel x y, searchLoop p x fuel = some y →
      p y = true ∧ x ≤ y ∧ ∀ z, x ≤ z → z < y → p z = false := by
  intro fuel
  induction fuel with
  | zero => intro x y h; simp [searchLoop] at h
  | succ n ih =>
    intro x y h
    rw [searchLoop] at h
    by_cases hp : p x
    · simp only [hp, if_true, Option.some_inj] at h
      subst h
      exact ⟨hp, le_refl x, fun z h1 h2 => by omega⟩
    · simp only [hp, if_false, Bool.false_eq_true] at h
      obtain ⟨hy, hxy, hmin⟩ := ih (x + 1) y h
      refine ⟨hy, by omega, fun z h1 h2 => ?_⟩
      rcases Nat.eq_or_lt_of_le h1 with rfl | hlt
      · exact Bool.eq_false_iff.mpr hp
      · exact hmin z hlt h2

theorem dryPreLoop_nil (c : CGConfig) (fuel : Nat) (s fu : Nat → ℚ) (trips idx stall : Nat) :
    dryPreLoop c fuel s fu trips [] idx stall = s := by
  cases fuel <;> simp [dryPreLoop]

theorem dryDays_append (c : CGConfig) (l2 : List Int) :
    ∀ l1 (s : Nat → ℚ),
      dryDays c (l1 ++ l2) s = (dryDays c l1 s).bind (fun s2 => dryDays c l2 s2) := by
  intro l1
  induction l1 with
  | nil => intro s; simp [dryDays]
  | cons d ds ih =>
    intro s
    rw [List.cons_append, dryDays, dryDays]
    cases dryDay c d s with
    | none => simp
    | some s2 => simpa using ih s2

/-! ## C1: minimality of the feasibility search -/

/-- Whenever some offset within the configured maximum satisfies the
dry simulation, the search returns the least satisfying offset; in
particular, for a positive result the dry run at the preceding offset
fails. -/
theorem feasibility_search_minimal (c : CGConfig) (x : Nat)
    (hx : x ≤ c.maxPreDays) (hcan : canMeetAll c x = true) :
    canMeetAll c (findPreDays c) = true ∧ findPreDays c ≤ x ∧
      (∀ y, y < findPreDays c → canMeetAll c y = false) ∧
      (0 < findPreDays c → canMeetAll c (findPreDays c - 1) = false) := by
  cases hopt : findPreDaysOpt c with
  | none =>
    exfalso
    have := searchLoop_none (p := canMeetAll c) (c.maxPreDays + 1) 0 hopt x
      (Nat.zero_le x) (by omega)
    rw [hcan] at this
    exact absurd this (by simp)
  | some y =>
    obtain ⟨hy, -, hmin⟩ := searchLoop_some (p := canMeetAll c) (c.maxPreDays + 1) 0 y hopt
    have hfp : findPreDays c = y := by simp [findPreDays, hopt]
    rw [hfp]
    have hyx : y ≤ x := by
      by_contra hgt
      have := hmin x (Nat.zero_le x) (by omega)
      rw [hcan] at this
      exact absurd this (by simp)
    exact ⟨hy, hyx, fun z hz => hmin z (Nat.zero_le z) hz,
      fun hpos => hmin (y - 1) (Nat.zero_le _) (by omega)⟩

/-- Witness for `feasibility_search_minimal` at the trivially feasible
configuration `Kw`. -/
theorem feasibility_search_minimal_witness :
    canMeetAll Kw (findPreDays Kw) = true ∧ findPreDays Kw ≤ 0 ∧
      (∀ y, y < findPreDays Kw → canMeetAll Kw y = false) ∧
      (0 < findPreDays Kw → canMeetAll Kw (findPreDays Kw - 1) = false) :=
  feasibility_search_minimal Kw 0 (Nat.zero_le _) (by with_unfolding_all decide)

/-! ## The infeasible input `K0` -/

theorem upd_self_val {β : Type} (s : Nat → β) (k : Nat) : upd s k (s k) = s := by
  funext j
  simp only [upd]
  split
  · rename_i h; rw [h]
  · rfl

theorem intRange_cons {a b : Int} (h : a ≤ b) : intRange a b = a :: intRange (a + 1) b := by
  unfold intRange
  have hm : (b + 1 - a).toNat = (b + 1 - (a + 1)).toNat + 1 := by omega
  rw [hm, List.range_succ_eq_map, List.map_cons, List.map_map]
  congr 1
  · omega
  · apply List.map_congr_left
    intro x hx
    simp only [Function.comp_apply]
    omega

theorem dryPre_of_no_room (c : CGConfig) (day : Int) (s : Nat → ℚ) (trips : Nat)
    (h : ∀ lg ∈ c.lgs, ¬ eps < freeRoom c s lg) : dryPre c day s trips = s := by
  simp only [dryPre]
  rw [List.filter_eq_nil_iff.mpr, dryPreLoop_nil]
  intro a ha
  simp only [decide_eq_true_eq, not_and]
  intro _
  exact h a ha

theorem prodPreLoop_nil (c : CGConfig) (day : Int) (fuel : Nat) (s fu : Nat → ℚ)
    (trips idx stall : Nat) (vids : List Nat) (recs : List CGRec) :
    prodPreLoop c day fuel s fu trips [] idx stall vids recs = (s, vids, recs) := by
  cases fuel <;> simp [prodPreLoop]

theorem prodPre_of_no_room (c : CGConfig) (day : Int) (s : Nat → ℚ) (trips : Nat)
    (vids : List Nat) (recs : List CGRec)
    (h : ∀ lg ∈ c.lgs, ¬ eps < freeRoom c s lg) :
    prodPre c day s trips vids recs = (s, vids, recs) := by
  simp only [prodPre]
  rw [List.filter_eq_nil_iff.mpr, prodPreLoop_nil]
  intro a ha
  simp only [decide_eq_true_eq, not_and]
  intro _
  exact h a ha

theorem K0_freeRoom (s : Nat → ℚ) (h : s 1 = 0) : freeRoom K0 s 1 = 0 := by
  simp [freeRoom, K0, stdCG, h]

theorem K0_no_room (s : Nat → ℚ) (h : s 1 = 0) : ∀ lg ∈ K0.lgs, ¬ eps < freeRoom K0 s lg := by
  intro lg hlg
  have : lg = 1 := by simpa [K0, stdCG] using hlg
  subst this
  rw [K0_freeRoom s h]
  norm_num [eps]

theorem K0_day_nonpos (d : Int) (hd : d ≤ 0) :
    dryDay K0 d (fun _ => 0) = some (fun _ => 0) := by
  have h1 : ¬ (1 ≤ d) := by omega
  simp only [dryDay, if_neg h1]
  rw [dryPre_of_no_room K0 d (fun _ => 0) K0.numVehicles (K0_no_room _ rfl)]
  simp

theorem K0_day_one : dryDay K0 1 (fun _ => 0) = none := by
  have h : (dryDay K0 1 (fun _ => 0)).isNone = true := by with_unfolding_all decide
  exact Option.isNone_iff_eq_none.mp h

theorem K0_preDays (l : List Int) (h : ∀ d ∈ l, d ≤ 0) :
    dryDays K0 l (fun _ => 0) = some (fun _ => 0) := by
  induction l with
  | nil => rfl
  | cons d ds ih =>
    rw [dryDays, K0_day_nonpos d (h d (List.mem_cons_self d ds))]
    exact ih fun x hx => h x (List.mem_cons_of_mem d hx)

theorem K0_canMeetAll (x : Nat) : canMeetAll K0 x = false := by
  unfold canMeetAll
  have htd : (K0.totalDays : Int) = 30 := by simp [K0, stdCG]
  have hsplit : simDaysList K0 x = intRange (1 - (x : Int)) 0 ++ intRange 1 30 := by
    unfold simDaysList
    rw [htd]
    exact intRange_append (by omega) (by norm_num)
  rw [hsplit, dryDays_append,
    K0_preDays _ (fun d hd => by have := mem_intRange.mp hd; omega)]
  rw [Option.some_bind, intRange_cons (by norm_num), dryDays, K0_day_one]
  rfl

theorem K0_findPreDaysOpt : findPreDaysOpt K0 = none :=
  searchLoop_none_of_all K0_canMeetAll (K0.maxPreDays + 1) 0

theorem K0_findPreDays : findPreDays K0 = 0 := by
  rw [findPreDays, K0_findPreDaysOpt]
  rfl

/-- C1 counterexample: on `K0` no offset up to the configured maximum
satisfies the dry run, yet `run_simulation` in src/simulation_py.py
returns the offset 0 (the loop's initialisation value), which does not
cover day 1 — so the returned value is not "the smallest integer in
[0, configured maximum] for which the dry simulation covers every day's
requirement" (no such integer exists). -/
theorem feasibility_search_returns_zero_counterexample :
    findPreDays K0 = 0 ∧ canMeetAll K0 0 = false ∧
      (∀ x, x ≤ K0.maxPreDays → canMeetAll K0 x = false) :=
  ⟨K0_findPreDays, K0_canMeetAll 0, fun x _ => K0_canMeetAll x⟩

theorem serveLoop_no_deliver (c : CGConfig) (day : Int) (lg : Nat) (trips : Nat)
    (vids : List Nat) (s : Nat → ℚ) (deliver : ℚ) (recs : List CGRec)
    (h : ¬ eps < deliver) :
    serveLoop c day lg trips vids s deliver recs = (s, trips, vids, recs) := by
  cases trips <;> simp [serveLoop, h]

theorem K0_req_nonneg (lg : Nat) (d : Int) : 0 ≤ K0.req lg d := by
  simp only [K0, stdCG]
  split <;> norm_num

theorem K0_serveDay (d : Int) (trips : Nat) (vids : List Nat) (recs : List CGRec) :
    serveDay K0 d (fun _ => 0) trips vids recs = ((fun _ => 0), trips, vids, recs) := by
  unfold serveDay
  have hsort : sortDescBy (fun lg => K0.req lg d - (fun _ => (0:ℚ)) lg) K0.lgs = [1] := rfl
  rw [hsort]
  simp only [serveDayGo]
  have hdel : min (max 0 (K0.req 1 d - (fun _ => (0:ℚ)) 1)) (freeRoom K0 (fun _ => 0) 1) = 0 := by
    rw [K0_freeRoom _ rfl]
    exact min_eq_right (le_max_left 0 _)
  rw [hdel, serveLoop_no_deliver K0 d 1 trips vids _ 0 recs (by norm_num [eps])]
  by_cases htr : trips = 0
  · subst htr; simp [serveDayGo]
  · simp [htr, serveDayGo]

theorem K0_consume (d : Int) : consume K0 d (fun _ => 0) = (fun _ => 0) := by
  unfold consume
  have hlgs : K0.lgs = [1] := rfl
  rw [hlgs]
  simp only [List.foldl]
  have hval : max 0 ((fun _ => (0:ℚ)) 1 - K0.req 1 d) = (fun _ => (0:ℚ)) 1 := by
    have := K0_req_nonneg 1 d
    simp only
    rw [max_eq_left (by linarith)]
  rw [hval, upd_self_val]

theorem K0_prodDay (recs : List CGRec) (d : Int) :
    prodDay K0 ⟨fun _ => 0, recs⟩ d = ⟨fun _ => 0, recs⟩ := by
  unfold prodDay
  dsimp only
  rw [K0_serveDay, ite_self]
  simp only
  rw [prodPre_of_no_room K0 d (fun _ => 0) _ _ _ (K0_no_room _ rfl)]
  have hnv : (0 < K0.numVehicles) = True := by simp [K0, stdCG]
  simp only [hnv, if_true]
  rw [K0_consume, ite_self]

theorem K0_prodDays (l : List Int) (recs : List CGRec) :
    l.foldl (prodDay K0) ⟨fun _ => 0, recs⟩ = ⟨fun _ => 0, recs⟩ := by
  induction l with
  | nil => rfl
  | cons d ds ih => rw [List.foldl_cons, K0_prodDay]; exact ih

/-- C3: on the infeasible input `K0`, the copy of the search in
src/simulation.py raises (`findPreDaysOpt K0 = none`), but
src/simulation_py.py — the claim's primary source — silently substitutes
the offset 0 and runs the production allocator to completion, emitting
its (here empty) transfer table instead of aborting; neither copy checks
a production day's coverage, so no abort happens there either. -/
theorem infeasible_configuration_not_fatal :
    findPreDaysOpt K0 = none ∧ findPreDays K0 = 0 ∧ (runCG K0).recs = [] := by
  refine ⟨K0_findPreDaysOpt, K0_findPreDays, ?_⟩
  unfold runCG
  rw [K0_findPreDays]
  unfold prodCG
  rw [K0_prodDays]

/-! ## C2: the dry mode against its coverage specification -/

theorem dryServe_of_T (c : CGConfig) (day : Int) :
    ∀ (l : List Nat) (st : (Nat → ℚ) × Nat),
      ((dryServeT c day l st).2 = true → dryServe c day l st = some (dryServeT c day l st).1) ∧
      ((dryServeT c day l st).2 = false → dryServe c day l st = none) := by
  intro l
  induction l with
  | nil =>
    intro st
    exact ⟨fun _ => rfl, fun h => by simp [dryServeT] at h⟩
  | cons lg rest ih =>
    intro st
    obtain ⟨s, trips⟩ := st
    rcases hstep : dryServeStep c day lg s trips with ⟨s2, trips2⟩
    rcases hT : dryServeT c day rest (s2, trips2) with ⟨st2, ok2⟩
    have hTc : dryServeT c day (lg :: rest) (s, trips) =
        (st2, (!decide (s2 lg + eps < c.req lg day)) && ok2) := by
      rw [dryServeT, hstep]
      dsimp only
      rw [hT]
    have hSc : dryServe c day (lg :: rest) (s, trips) =
        if s2 lg + eps < c.req lg day then none else dryServe c day rest (s2, trips2) := by
      rw [dryServe, hstep]
    obtain ⟨ih1, ih2⟩ := ih (s2, trips2)
    rw [hT] at ih1 ih2
    constructor
    · intro h
      rw [hTc] at h
      simp only [Bool.and_eq_true, Bool.not_eq_true', decide_eq_false_iff_not] at h
      rw [hSc, if_neg h.1, hTc]
      exact ih1 h.2
    · intro h
      rw [hTc] at h
      rw [hSc]
      by_cases hcond : s2 lg + eps < c.req lg day
      · rw [if_pos hcond]
      · rw [if_neg hcond]
        apply ih2
        simpa [hcond] using h

theorem dryDay_of_T (c : CGConfig) (day : Int) (s : Nat → ℚ) :
    ((dryDayT c day s).2 = true → dryDay c day s = some (dryDayT c day s).1) ∧
    ((dryDayT c day s).2 = false → dryDay c day s = none) := by
  by_cases hd : 1 ≤ day
  · rcases hT : dryServeT c day c.lgs (s, c.numVehicles) with ⟨⟨s1, trips1⟩, ok⟩
    obtain ⟨h1, h2⟩ := dryServe_of_T c day c.lgs (s, c.numVehicles)
    rw [hT] at h1 h2
    have hDT : dryDayT c day s =
        (consume c day (if 0 < trips1 then dryPre c day s1 trips1 else s1), ok) := by
      rw [dryDayT, if_pos hd, hT]
      dsimp only
      rw [if_pos hd]
    cases ok with
    | true =>
      have hD : dryDay c day s =
          some (consume c day (if 0 < trips1 then dryPre c day s1 trips1 else s1)) := by
        rw [dryDay, if_pos hd, h1 rfl]
        dsimp only
        rw [if_pos hd]
      rw [hDT, hD]
      exact ⟨fun _ => rfl, fun h => by simp at h⟩
    | false =>
      have hD : dryDay c day s = none := by
        rw [dryDay, if_pos hd, h2 rfl]
      rw [hDT, hD]
      exact ⟨fun h => by simp at h, fun _ => rfl⟩
  · have hDT : dryDayT c day s =
        (if 0 < c.numVehicles then dryPre c day s c.numVehicles else s, true) := by
      rw [dryDayT, if_neg hd]
      dsimp only
      rw [if_neg hd]
    have hD : dryDay c day s =
        some (if 0 < c.numVehicles then dryPre c day s c.numVehicles else s) := by
      rw [dryDay, if_neg hd]
      dsimp only
      rw [if_neg hd]
    rw [hDT, hD]
    exact ⟨fun _ => rfl, fun h => by simp at h⟩

theorem dryDays_of_T (c : CGConfig) :
    ∀ (l : List Int) (s : Nat → ℚ),
      ((dryDaysT c l s).2 = true → dryDays c l s = some (dryDaysT c l s).1) ∧
      ((dryDaysT c l s).2 = false → dryDays c l s = none) := by
  intro l
  induction l with
  | nil =>
    intro s
    exact ⟨fun _ => rfl, fun h => by simp [dryDaysT] at h⟩
  | cons d ds ih =>
    intro s
    rcases hD : dryDayT c d s with ⟨s2, ok⟩
    rcases hDs : dryDaysT c ds s2 with ⟨s3, ok2⟩
    have hTc : dryDaysT c (d :: ds) s = (s3, ok && ok2) := by
      rw [dryDaysT, hD]
      dsimp only
      rw [hDs]
    obtain ⟨hd1, hd2⟩ := dryDay_of_T c d s
    rw [hD] at hd1 hd2
    obtain ⟨hs1, hs2⟩ := ih s2
    rw [hDs] at hs1 hs2
    cases ok with
    | false =>
      have hDn : dryDays c (d :: ds) s = none := by
        rw [dryDays, hd2 rfl]
      rw [hTc, hDn]
      exact ⟨fun h => by simp at h, fun _ => rfl⟩
    | true =>
      have hDs2 : dryDays c (d :: ds) s = dryDays c ds s2 := by
        rw [dryDays, hd1 rfl]
      cases ok2 with
      | false =>
        rw [hTc, hDs2, hs2 rfl]
        exact ⟨fun h => by simp at h, fun _ => rfl⟩
      | true =>
        rw [hTc, hDs2, hs1 rfl]
        exact ⟨fun _ => rfl, fun h => by simp at h⟩

/-- C2 (amended): `can_meet_all(X)` returns `True` exactly when the dry
(non-recording) run starting at day `1 - X` from zero stock ends every
day ≥ 1 with each LG's post-delivery stock covering the day's
requirement within the 1e-6 tolerance — the property `dryCovers` states
directly, following the spec's words.  (The dry run's deliveries differ
from the production allocator's: see the counterexample.) -/
theorem canMeetAll_iff_dryCovers (c : CGConfig) (preDays : Nat) :
    canMeetAll c preDays = dryCovers c preDays := by
  unfold canMeetAll dryCovers
  obtain ⟨h1, h2⟩ := dryDays_of_T c (simDaysList c preDays) (fun _ => 0)
  cases hB : (dryDaysT c (simDaysList c preDays) (fun _ => 0)).2 with
  | false => rw [h2 hB]; rfl
  | true => rw [h1 hB]; rfl

/-- C2 counterexample: on `K2` (one LG, capacity 100, requirement 1 t on
day 1, one-day horizon) the dry serve step delivers a whole 11.5 t
vehicle load while the production serve step delivers exactly 1 t — the
two runs do not "differ only in record emission". -/
theorem dry_vs_production_quantities_counterexample :
    (dryServe K2 1 [1] ((fun _ => 0), 30)).map (fun p => p.1 1) = some (23/2) ∧
      (prodCG K2 0).recs.map CGRec.qty = [1] ∧ ((23 : ℚ)/2 ≠ 1) :=
  ⟨by with_unfolding_all decide, by with_unfolding_all decide, by norm_num⟩

/-! ## C5 and C8: the need computation and the dispatch order -/

theorem sortDescBy_pair_left {α : Type} (key : α → ℚ) (a b : α) (h : key b < key a) :
    sortDescBy key [a, b] = [a, b] := by
  simp only [sortDescBy, List.foldl_cons, List.foldl_nil, insertDescBy]
  rw [if_neg (not_lt_of_gt h)]

theorem sortDescBy_pair_right {α : Type} (key : α → ℚ) (a b : α) (h : key b < key a) :
    sortDescBy key [b, a] = [a, b] := by
  simp only [sortDescBy, List.foldl_cons, List.foldl_nil, insertDescBy]
  rw [if_pos h]

theorem computeNeeds_acc_mono (c : FPSConfig) (ls fs : Nat → ℚ) :
    ∀ (rows : List FPSRow) (acc : List Need) (n : Need),
      n ∈ acc → n ∈ rows.foldl (needStep c ls fs) acc := by
  intro rows
  induction rows with
  | nil => intro acc n h; exact h
  | cons r rest ih =>
    intro acc n h
    rw [List.foldl_cons]
    apply ih
    simp only [needStep]
    split
    · split
      · exact List.mem_append_left _ h
      · exact h
    · exact h

theorem computeNeeds_qty_pos (c : FPSConfig) (ls fs : Nat → ℚ) :
    ∀ n ∈ computeNeeds c ls fs, 0 < n.qty := by
  unfold computeNeeds
  suffices h : ∀ (rows : List FPSRow) (acc : List Need), (∀ n ∈ acc, 0 < n.qty) →
      ∀ n ∈ rows.foldl (needStep c ls fs) acc, 0 < n.qty by
    exact fun n hn => h c.fps [] (by simp) n hn
  intro rows
  induction rows with
  | nil => intro acc hacc n hn; exact hacc n hn
  | cons r rest ih =>
    intro acc hacc n hn
    rw [List.foldl_cons] at hn
    refine ih _ ?_ n hn
    intro m hm
    simp only [needStep] at hm
    split at hm
    · split at hm
      · rcases List.mem_append.mp hm with h | h
        · exact hacc m h
        · rename_i hq
          rw [List.mem_singleton.mp h]
          exact hq
      · exact hacc m hm
    · exact hacc m hm

theorem computeNeeds_mem_entry (c : FPSConfig) (ls fs : Nat → ℚ) (r : FPSRow)
    (hth : fs r.fid ≤ threshold c r)
    (hq : 0 < min (r.maxCap - fs r.fid) (ls r.lgId)) :
    ∀ (rows : List FPSRow) (acc : List Need), r ∈ rows →
      (⟨(threshold c r - fs r.fid) / dailyDemand r, r.fid, r.lgId,
          min (r.maxCap - fs r.fid) (ls r.lgId)⟩ : Need) ∈
        rows.foldl (needStep c ls fs) acc := by
  intro rows
  induction rows with
  | nil => intro acc h; simp at h
  | cons r2 rest ih =>
    intro acc hmem
    rw [List.foldl_cons]
    rcases List.mem_cons.mp hmem with rfl | hmem2
    · apply computeNeeds_acc_mono
      simp only [needStep]
      rw [if_pos hth, if_pos hq]
      exact List.mem_append_right _ (List.mem_singleton.mpr rfl)
    · exact ih _ hmem2

/-- C8: for an outlet row with zero daily demand whose stock is at or
below its threshold and whose deliverable quantity is positive, the need
computation emits the entry whose urgency is the unguarded quotient
`(threshold - current) / daily demand` with a zero divisor.  (Division
in ℚ is total; the Python source raises `ZeroDivisionError` at
src/simulation_py.py line 186, confirming there is no guard.) -/
theorem zero_demand_urgency_division (c : FPSConfig) (ls fs : Nat → ℚ) (r : FPSRow)
    (hr : r ∈ c.fps) (hdem : dailyDemand r = 0) (hth : fs r.fid ≤ threshold c r)
    (hq : 0 < min (r.maxCap - fs r.fid) (ls r.lgId)) :
    (⟨(threshold c r - fs r.fid) / dailyDemand r, r.fid, r.lgId,
        min (r.maxCap - fs r.fid) (ls r.lgId)⟩ : Need) ∈ computeNeeds c ls fs ∧
      dailyDemand r = 0 :=
  ⟨computeNeeds_mem_entry c ls fs r hth hq c.fps [] hr, hdem⟩

/-- Witness for `zero_demand_urgency_division` on `F8`. -/
theorem zero_demand_urgency_division_witness :
    (⟨(threshold F8 ⟨21, 0, some 3, 50, 1⟩ - (fun _ => (0:ℚ)) 21) /
        dailyDemand ⟨21, 0, some 3, 50, 1⟩, 21, 1,
        min ((50:ℚ) - (fun _ => (0:ℚ)) 21) (initLG F8 1)⟩ : Need) ∈
      computeNeeds F8 (initLG F8) (fun _ => 0) ∧
      dailyDemand ⟨21, 0, some 3, 50, 1⟩ = 0 :=
  zero_demand_urgency_division F8 (initLG F8) (fun _ => 0) ⟨21, 0, some 3, 50, 1⟩
    (by with_unfolding_all decide) (by with_unfolding_all decide)
    (by with_unfolding_all decide) (by with_unfolding_all decide)

theorem dispChoose_mem : ∀ (l : List VehicleRow) (v : VehicleRow),
    dispChoose l = some v → v ∈ l := by
  intro l v h
  cases l with
  | nil => simp [dispChoose] at h
  | cons cv rest =>
    simp only [dispChoose, Option.some_inj] at h
    subst h
    cases hf : (cv :: rest).filter (fun v => decide (1 < v.mappedLGs.length)) with
    | nil => exact List.mem_cons_self cv rest
    | cons sv tl =>
      have hsv : sv ∈ (cv :: rest).filter (fun v => decide (1 < v.mappedLGs.length)) := by
        rw [hf]; exact List.mem_cons_self sv tl
      exact List.mem_of_mem_filter hsv

theorem dispChoose_isSome (l : List VehicleRow) (h : l ≠ []) :
    ∃ v, dispChoose l = some v := by
  cases l with
  | nil => exact absurd rfl h
  | cons cv rest => exact ⟨_, rfl⟩

theorem dispatchNeeds_recs_prefix (c : FPSConfig) (day : Nat) :
    ∀ (needs : List Need) (ls fs : Nat → ℚ) (tr : Nat → Nat) (recs : List LGRec),
      ∃ tail, (dispatchNeeds c day needs ls fs tr recs).2.2.2 = recs ++ tail := by
  intro needs
  induction needs with
  | nil =>
    intro ls fs tr recs
    exact ⟨[], by simp [dispatchNeeds]⟩
  | cons n rest ih =>
    intro ls fs tr recs
    rw [dispatchNeeds]
    cases hch : dispChoose (dispCands c tr n.lgId) with
    | none => exact ih ls fs tr recs
    | some chosen =>
      dsimp only
      by_cases hq : min (vcapOf c chosen) (min n.qty (ls n.lgId)) ≤ 0
      · rw [if_pos hq]
        exact ih ls fs tr recs
      · rw [if_neg hq]
        obtain ⟨tail, htail⟩ := ih
          (upd ls n.lgId (ls n.lgId - min (vcapOf c chosen) (min n.qty (ls n.lgId))))
          (upd fs n.fid (fs n.fid + min (vcapOf c chosen) (min n.qty (ls n.lgId))))
          (upd tr chosen.vid (tr chosen.vid + 1))
          (recs ++ [⟨day, chosen.vid, n.lgId, n.fid,
            min (vcapOf c chosen) (min n.qty (ls n.lgId))⟩])
        exact ⟨_, by rw [htail, List.append_assoc]⟩

/-- C5: when the computed needs are exactly those of outlets `A` and `B`
with `A` strictly more urgent, and some vehicle routes to `A`'s LG with
the trip cap positive, all vehicle capacities positive and `A`'s LG
stocked, then the first transfer of the day's dispatch goes to outlet
`A` — needs are served most-urgent first. -/
theorem urgent_need_served_first (c : FPSConfig) (day : Nat) (ls fs : Nat → ℚ)
    (recs : List LGRec) (A B : Need)
    (hAB : computeNeeds c ls fs = [A, B] ∨ computeNeeds c ls fs = [B, A])
    (hurg : B.urg < A.urg)
    (hveh : ∃ v ∈ c.vehicles, A.lgId ∈ v.mappedLGs)
    (hmt : 0 < c.maxTrips)
    (hvcap : ∀ v ∈ c.vehicles, 0 < vcapOf c v)
    (hstock : 0 < ls A.lgId) :
    ∃ r tail,
      (dispatchNeeds c day (sortDescBy Need.urg (computeNeeds c ls fs))
          ls fs (fun _ => 0) recs).2.2.2 = recs ++ r :: tail ∧
        r.fid = A.fid ∧ r.lgId = A.lgId := by
  have hsort : sortDescBy Need.urg (computeNeeds c ls fs) = [A, B] := by
    rcases hAB with h | h <;> rw [h]
    · exact sortDescBy_pair_left Need.urg A B hurg
    · exact sortDescBy_pair_right Need.urg A B hurg
  have hAq : 0 < A.qty := by
    have hmem : A ∈ computeNeeds c ls fs := by
      rcases hAB with h | h <;> simp [h]
    exact computeNeeds_qty_pos c ls fs A hmem
  rw [hsort, dispatchNeeds]
  obtain ⟨v, hv, hvlg⟩ := hveh
  have hvc : v ∈ dispCands c (fun _ => 0) A.lgId := by
    unfold dispCands
    exact List.mem_filter.mpr ⟨hv, by simp [hvlg, hmt]⟩
  have hne : dispCands c (fun _ => 0) A.lgId ≠ [] := by
    intro h
    rw [h] at hvc
    exact absurd hvc (List.not_mem_nil v)
  obtain ⟨chosen, hch⟩ := dispChoose_isSome _ hne
  rw [hch]
  dsimp only
  have hchmem : chosen ∈ c.vehicles :=
    List.mem_of_mem_filter (dispChoose_mem _ chosen hch)
  have hqpos : ¬ (min (vcapOf c chosen) (min A.qty (ls A.lgId)) ≤ 0) := by
    push_neg
    exact lt_min (hvcap chosen hchmem) (lt_min hAq hstock)
  rw [if_neg hqpos]
  obtain ⟨tail, htail⟩ := dispatchNeeds_recs_prefix c day [B]
    (upd ls A.lgId (ls A.lgId - min (vcapOf c chosen) (min A.qty (ls A.lgId))))
    (upd fs A.fid (fs A.fid + min (vcapOf c chosen) (min A.qty (ls A.lgId))))
    (upd (fun _ => 0) chosen.vid ((fun _ => (0:Nat)) chosen.vid + 1))
    (recs ++ [⟨day, chosen.vid, A.lgId, A.fid,
      min (vcapOf c chosen) (min A.qty (ls A.lgId))⟩])
  exact ⟨⟨day, chosen.vid, A.lgId, A.fid, min (vcapOf c chosen) (min A.qty (ls A.lgId))⟩,
    tail, by rw [htail, List.append_assoc, List.singleton_append], rfl, rfl⟩

/-- Witness for `urgent_need_served_first`: Scenario D on `F5`, outlet
11 with urgency 1 against outlet 12 with 5 days of cover (urgency 0). -/
theorem urgent_need_served_first_witness :
    ∃ r tail,
      (dispatchNeeds F5 1 (sortDescBy Need.urg (computeNeeds F5 (initLG F5) fsW))
          (initLG F5) fsW (fun _ => 0) []).2.2.2 = [] ++ r :: tail ∧
        r.fid = (⟨1, 11, 1, 80⟩ : Need).fid ∧ r.lgId = (⟨1, 11, 1, 80⟩ : Need).lgId :=
  urgent_need_served_first F5 1 (initLG F5) fsW [] ⟨1, 11, 1, 80⟩ ⟨0, 12, 1, 50⟩
    (Or.inl (by with_unfolding_all decide)) (by norm_num)
    ⟨⟨7, some 50, [1, 2]⟩, by with_unfolding_all decide, by decide⟩
    (by decide) (by with_unfolding_all decide) (by with_unfolding_all decide)

/-! ## C7: per-day trip counters -/

theorem dispCands_trips_lt (c : FPSConfig) (tr : Nat → Nat) (lgId : Nat) (v : VehicleRow)
    (h : v ∈ dispCands c tr lgId) : tr v.vid < c.maxTrips := by
  have := (List.mem_filter.mp h).2
  simp only [Bool.and_eq_true, decide_eq_true_eq] at this
  exact this.2

theorem dispatchNeeds_trips_le (c : FPSConfig) (day : Nat) :
    ∀ (needs : List Need) (ls fs : Nat → ℚ) (tr : Nat → Nat) (recs : List LGRec),
      (∀ k, tr k ≤ c.maxTrips) →
      ∀ k, (dispatchNeeds c day needs ls fs tr recs).2.2.1 k ≤ c.maxTrips := by
  intro needs
  induction needs with
  | nil => intro ls fs tr recs h k; exact h k
  | cons n rest ih =>
    intro ls fs tr recs h k
    rw [dispatchNeeds]
    cases hch : dispChoose (dispCands c tr n.lgId) with
    | none => exact ih ls fs tr recs h k
    | some chosen =>
      dsimp only
      by_cases hq : min (vcapOf c chosen) (min n.qty (ls n.lgId)) ≤ 0
      · rw [if_pos hq]
        exact ih ls fs tr recs h k
      · rw [if_neg hq]
        refine ih _ _ _ _ ?_ k
        intro j
        by_cases hj : j = chosen.vid
        · subst hj
          rw [upd_self]
          have hlt := dispCands_trips_lt c tr n.lgId chosen (dispChoose_mem _ chosen hch)
          omega
        · rw [upd_ne _ _ _ hj]
          exact h j

/-- C7: on every day, every vehicle's trip counter used by the
dispatcher starts from the zero map (the incoming counters are ignored:
resetting them changes nothing) and ends the day at most the configured
maximum trips per vehicle. -/
theorem vehicle_trip_cap (c : FPSConfig) (st : FPSState) (day : Nat) :
    (∀ k, (fpsDay c st day).trips k ≤ c.maxTrips) ∧
      fpsDay c st day = fpsDay c ⟨st.lstock, st.fstock, fun _ => 0, st.recs, st.snaps⟩ day := by
  refine ⟨?_, rfl⟩
  intro k
  unfold fpsDay
  dsimp only
  rcases hd : dispatchNeeds c day
      (sortDescBy Need.urg (computeNeeds c st.lstock (consumeFPS c st.fstock)))
      st.lstock (consumeFPS c st.fstock) (fun _ => 0) st.recs with ⟨ls2, fs2, tr2, recs2⟩
  dsimp only
  have := dispatchNeeds_trips_le c day
    (sortDescBy Need.urg (computeNeeds c st.lstock (consumeFPS c st.fstock)))
    st.lstock (consumeFPS c st.fstock) (fun _ => 0) st.recs
    (fun _ => Nat.zero_le _) k
  rw [hd] at this
  exact this

/-! ## C6: every recorded quantity is positive and within the vehicle
capacity -/

theorem eps_pos : (0 : ℚ) < eps := by norm_num [eps]

theorem serveLoop_recs_bounded (c : CGConfig) (day : Int) (lg : Nat)
    (hvc : 0 < c.vehicleCapacity) :
    ∀ (trips : Nat) (vids : List Nat) (s : Nat → ℚ) (deliver : ℚ) (recs : List CGRec),
      (∀ r ∈ recs, 0 < r.qty ∧ r.qty ≤ c.vehicleCapacity) →
      ∀ r ∈ (serveLoop c day lg trips vids s deliver recs).2.2.2,
        0 < r.qty ∧ r.qty ≤ c.vehicleCapacity := by
  intro trips
  induction trips with
  | zero => intro vids s deliver recs h r hr; exact h r hr
  | succ t ih =>
    intro vids s deliver recs h r hr
    rw [serveLoop.eq_def] at hr
    dsimp only at hr
    by_cases hd : eps < deliver
    · rw [if_pos hd] at hr
      cases vids with
      | nil => exact h r hr
      | cons vid vrest =>
        dsimp only at hr
        refine ih vrest _ _ _ ?_ r hr
        intro r2 hr2
        rcases List.mem_append.mp hr2 with h2 | h2
        · exact h r2 h2
        · rw [List.mem_singleton.mp h2]
          constructor
          · exact lt_min (lt_trans eps_pos hd) hvc
          · exact min_le_right _ _
    · rw [if_neg hd] at hr
      exact h r hr

theorem serveDayGo_recs_bounded (c : CGConfig) (day : Int) (hvc : 0 < c.vehicleCapacity) :
    ∀ (lgs : List Nat) (s : Nat → ℚ) (trips : Nat) (vids : List Nat) (recs : List CGRec),
      (∀ r ∈ recs, 0 < r.qty ∧ r.qty ≤ c.vehicleCapacity) →
      ∀ r ∈ (serveDayGo c day lgs s trips vids recs).2.2.2,
        0 < r.qty ∧ r.qty ≤ c.vehicleCapacity := by
  intro lgs
  induction lgs with
  | nil => intro s trips vids recs h r hr; exact h r hr
  | cons lg rest ih =>
    intro s trips vids recs h r hr
    rw [serveDayGo] at hr
    rcases hs : serveLoop c day lg trips vids s
        (min (max 0 (c.req lg day - s lg)) (freeRoom c s lg)) recs with ⟨s2, trips2, vids2, recs2⟩
    rw [hs] at hr
    dsimp only at hr
    have hrecs2 : ∀ r2 ∈ recs2, 0 < r2.qty ∧ r2.qty ≤ c.vehicleCapacity := by
      intro r2 hr2
      have := serveLoop_recs_bounded c day lg hvc trips vids s
        (min (max 0 (c.req lg day - s lg)) (freeRoom c s lg)) recs h r2
      rw [hs] at this
      exact this hr2
    by_cases ht : trips2 = 0
    · rw [if_pos ht] at hr
      exact hrecs2 r hr
    · rw [if_neg ht] at hr
      exact ih s2 trips2 vids2 recs2 hrecs2 r hr

theorem prodPreLoop_recs_bounded (c : CGConfig) (day : Int) (hvc : 0 < c.vehicleCapacity) :
    ∀ (fuel : Nat) (s fu : Nat → ℚ) (trips : Nat) (cands : List Nat) (idx stall : Nat)
      (vids : List Nat) (recs : List CGRec),
      (∀ r ∈ recs, 0 < r.qty ∧ r.qty ≤ c.vehicleCapacity) →
      ∀ r ∈ (prodPreLoop c day fuel s fu trips cands idx stall vids recs).2.2,
        0 < r.qty ∧ r.qty ≤ c.vehicleCapacity := by
  intro fuel
  induction fuel with
  | zero => intro s fu trips cands idx stall vids recs h r hr; exact h r hr
  | succ n ih =>
    intro s fu trips cands idx stall vids recs h r hr
    rw [prodPreLoop] at hr
    by_cases h0 : trips = 0 ∨ cands = []
    · rw [if_pos h0] at hr
      exact h r hr
    · rw [if_neg h0] at hr
      set lg := cands.getD (idx % cands.length) 0 with hlg
      by_cases hd : eps < min c.vehicleCapacity (min (fu lg) (freeRoom c s lg))
      · rw [if_pos hd] at hr
        cases vids with
        | nil => exact h r hr
        | cons vid vrest =>
          dsimp only at hr
          have hb : ∀ r2 ∈ recs ++ [(⟨day, vid, lg,
              min (min c.vehicleCapacity (min (fu lg) (freeRoom c s lg)))
                c.vehicleCapacity⟩ : CGRec)],
              0 < r2.qty ∧ r2.qty ≤ c.vehicleCapacity := by
            intro r2 hr2
            rcases List.mem_append.mp hr2 with h2 | h2
            · exact h r2 h2
            · rw [List.mem_singleton.mp h2]
              exact ⟨lt_min (lt_trans eps_pos hd) hvc, min_le_right _ _⟩
          split at hr
          · exact ih _ _ _ _ _ _ _ _ hb r hr
          · exact ih _ _ _ _ _ _ _ _ hb r hr
      · rw [if_neg hd] at hr
        split at hr
        · exact ih _ _ _ _ _ _ _ _ h r hr
        · split at hr
          · exact ih _ _ _ _ _ _ _ _ h r hr
          · exact h r hr

theorem prodPre_recs_bounded (c : CGConfig) (day : Int) (hvc : 0 < c.vehicleCapacity)
    (s : Nat → ℚ) (trips : Nat) (vids : List Nat) (recs : List CGRec)
    (h : ∀ r ∈ recs, 0 < r.qty ∧ r.qty ≤ c.vehicleCapacity) :
    ∀ r ∈ (prodPre c day s trips vids recs).2.2, 0 < r.qty ∧ r.qty ≤ c.vehicleCapacity := by
  unfold prodPre
  exact prodPreLoop_recs_bounded c day hvc _ _ _ _ _ _ _ _ _ h

theorem prodDay_recs_bounded (c : CGConfig) (hvc : 0 < c.vehicleCapacity)
    (st : CGState) (day : Int)
    (h : ∀ r ∈ st.recs, 0 < r.qty ∧ r.qty ≤ c.vehicleCapacity) :
    ∀ r ∈ (prodDay c st day).recs, 0 < r.qty ∧ r.qty ≤ c.vehicleCapacity := by
  unfold prodDay
  dsimp only
  rcases hs : (if 1 ≤ day then
      serveDay c day st.stock c.numVehicles ((List.range c.numVehicles).map (fun i => i + 1)) st.recs
    else (st.stock, c.numVehicles, (List.range c.numVehicles).map (fun i => i + 1), st.recs))
    with ⟨s1, trips1, vids1, recs1⟩
  have hrecs1 : ∀ r ∈ recs1, 0 < r.qty ∧ r.qty ≤ c.vehicleCapacity := by
    by_cases hd : 1 ≤ day
    · rw [if_pos hd] at hs
      intro r hr
      have := serveDayGo_recs_bounded c day hvc
        (sortDescBy (fun lg => c.req lg day - st.stock lg) c.lgs) st.stock c.numVehicles
        ((List.range c.numVehicles).map (fun i => i + 1)) st.recs h r
      rw [show serveDayGo c day (sortDescBy (fun lg => c.req lg day - st.stock lg) c.lgs)
          st.stock c.numVehicles ((List.range c.numVehicles).map (fun i => i + 1)) st.recs
          = serveDay c day st.stock c.numVehicles
            ((List.range c.numVehicles).map (fun i => i + 1)) st.recs from rfl, hs] at this
      exact this hr
    · rw [if_neg hd] at hs
      have : recs1 = st.recs := by
        have := congrArg (fun p => p.2.2.2) hs
        exact this.symm
      rw [this]
      exact h
  rcases hp : (if 0 < trips1 then prodPre c day s1 trips1 vids1 recs1
      else (s1, vids1, recs1)) with ⟨s2, vids2, recs2⟩
  dsimp only
  by_cases ht : 0 < trips1
  · rw [if_pos ht] at hp
    intro r hr
    have := prodPre_recs_bounded c day hvc s1 trips1 vids1 recs1 hrecs1 r
    rw [hp] at this
    exact this hr
  · rw [if_neg ht] at hp
    have : recs2 = recs1 := by
      have := congrArg (fun p => p.2.2) hp
      exact this.symm
    rw [this]
    exact hrecs1

theorem prodCG_recs_bounded (c : CGConfig) (preDays : Nat) (hvc : 0 < c.vehicleCapacity) :
    ∀ r ∈ (prodCG c preDays).recs, 0 < r.qty ∧ r.qty ≤ c.vehicleCapacity := by
  unfold prodCG
  suffices hgen : ∀ (l : List Int) (st : CGState),
      (∀ r ∈ st.recs, 0 < r.qty ∧ r.qty ≤ c.vehicleCapacity) →
      ∀ r ∈ (l.foldl (prodDay c) st).recs, 0 < r.qty ∧ r.qty ≤ c.vehicleCapacity by
    exact hgen _ _ (by simp)
  intro l
  induction l with
  | nil => intro st h; exact h
  | cons d ds ih =>
    intro st h
    rw [List.foldl_cons]
    exact ih _ (prodDay_recs_bounded c hvc st d h)

theorem dispatchNeeds_recs_bounded (c : FPSConfig) (day : Nat) :
    ∀ (needs : List Need) (ls fs : Nat → ℚ) (tr : Nat → Nat) (recs : List LGRec),
      (∀ r ∈ recs, 0 < r.qty ∧ ∃ v ∈ c.vehicles, v.vid = r.vid ∧ r.qty ≤ vcapOf c v) →
      ∀ r ∈ (dispatchNeeds c day needs ls fs tr recs).2.2.2,
        0 < r.qty ∧ ∃ v ∈ c.vehicles, v.vid = r.vid ∧ r.qty ≤ vcapOf c v := by
  intro needs
  induction needs with
  | nil => intro ls fs tr recs h r hr; exact h r hr
  | cons n rest ih =>
    intro ls fs tr recs h r hr
    rw [dispatchNeeds] at hr
    cases hch : dispChoose (dispCands c tr n.lgId) with
    | none =>
      rw [hch] at hr
      exact ih ls fs tr recs h r hr
    | some chosen =>
      rw [hch] at hr
      dsimp only at hr
      by_cases hq : min (vcapOf c chosen) (min n.qty (ls n.lgId)) ≤ 0
      · rw [if_pos hq] at hr
        exact ih ls fs tr recs h r hr
      · rw [if_neg hq] at hr
        refine ih _ _ _ _ ?_ r hr
        intro r2 hr2
        rcases List.mem_append.mp hr2 with h2 | h2
        · exact h r2 h2
        · rw [List.mem_singleton.mp h2]
          push_neg at hq
          exact ⟨hq, chosen, List.mem_of_mem_filter (dispChoose_mem _ chosen hch),
            rfl, min_le_left _ _⟩

theorem runFPS_recs_bounded (c : FPSConfig) :
    ∀ r ∈ (runFPS c).recs, 0 < r.qty ∧ ∃ v ∈ c.vehicles, v.vid = r.vid ∧ r.qty ≤ vcapOf c v := by
  unfold runFPS
  suffices hgen : ∀ (l : List Nat) (st : FPSState),
      (∀ r ∈ st.recs, 0 < r.qty ∧ ∃ v ∈ c.vehicles, v.vid = r.vid ∧ r.qty ≤ vcapOf c v) →
      ∀ r ∈ (l.foldl (fpsDay c) st).recs,
        0 < r.qty ∧ ∃ v ∈ c.vehicles, v.vid = r.vid ∧ r.qty ≤ vcapOf c v by
    exact hgen _ _ (by simp [fpsInit])
  intro l
  induction l with
  | nil => intro st h; exact h
  | cons d ds ih =>
    intro st h
    rw [List.foldl_cons]
    refine ih _ ?_
    unfold fpsDay
    dsimp only
    rcases hd : dispatchNeeds c d
        (sortDescBy Need.urg (computeNeeds c st.lstock (consumeFPS c st.fstock)))
        st.lstock (consumeFPS c st.fstock) (fun _ => 0) st.recs with ⟨ls2, fs2, tr2, recs2⟩
    dsimp only
    intro r hr
    have := dispatchNeeds_recs_bounded c d
      (sortDescBy Need.urg (computeNeeds c st.lstock (consumeFPS c st.fstock)))
      st.lstock (consumeFPS c st.fstock) (fun _ => 0) st.recs h r
    rw [hd] at this
    exact this hr

/-- C6: every CG→LG transfer record carries a strictly positive quantity
bounded by the fixed source vehicle capacity, and every LG→FPS transfer
record carries a strictly positive quantity bounded by the capacity
(own or default) of the vehicle named on the record. -/
theorem transfer_quantities_bounded (c : CGConfig) (f : FPSConfig) (preDays : Nat)
    (hvc : 0 < c.vehicleCapacity) :
    (∀ r ∈ (prodCG c preDays).recs, 0 < r.qty ∧ r.qty ≤ c.vehicleCapacity) ∧
      (∀ r ∈ (runFPS f).recs,
        0 < r.qty ∧ ∃ v ∈ f.vehicles, v.vid = r.vid ∧ r.qty ≤ vcapOf f v) :=
  ⟨prodCG_recs_bounded c preDays hvc, runFPS_recs_bounded f⟩

/-- Witness for `transfer_quantities_bounded` at `K2` and `F5`. -/
theorem transfer_quantities_bounded_witness :
    (∀ r ∈ (prodCG K2 0).recs, 0 < r.qty ∧ r.qty ≤ K2.vehicleCapacity) ∧
      (∀ r ∈ (runFPS F5).recs,
        0 < r.qty ∧ ∃ v ∈ F5.vehicles, v.vid = r.vid ∧ r.qty ≤ vcapOf F5 v) :=
  transfer_quantities_bounded K2 F5 0 (by with_unfolding_all decide)

/-! ## C10: regional stock in the outlet tier is only ever drawn down -/

theorem shippedTo_append (l1 l2 : List LGRec) (lg : Nat) :
    shippedTo (l1 ++ l2) lg = shippedTo l1 lg + shippedTo l2 lg := by
  simp [shippedTo, List.filter_append]

theorem dispatchNeeds_lstock (c : FPSConfig) (day : Nat) :
    ∀ (needs : List Need) (ls fs : Nat → ℚ) (tr : Nat → Nat) (recs : List LGRec) (lg : Nat),
      shippedTo (dispatchNeeds c day needs ls fs tr recs).2.2.2 lg +
          (dispatchNeeds c day needs ls fs tr recs).1 lg =
        shippedTo recs lg + ls lg ∧
      (dispatchNeeds c day needs ls fs tr recs).1 lg ≤ ls lg := by
  intro needs
  induction needs with
  | nil => intro ls fs tr recs lg; exact ⟨rfl, le_refl _⟩
  | cons n rest ih =>
    intro ls fs tr recs lg
    rw [dispatchNeeds]
    cases hch : dispChoose (dispCands c tr n.lgId) with
    | none => exact ih ls fs tr recs lg
    | some chosen =>
      dsimp only
      by_cases hq : min (vcapOf c chosen) (min n.qty (ls n.lgId)) ≤ 0
      · rw [if_pos hq]
        exact ih ls fs tr recs lg
      · rw [if_neg hq]
        push_neg at hq
        obtain ⟨ihc, ihm⟩ := ih
          (upd ls n.lgId (ls n.lgId - min (vcapOf c chosen) (min n.qty (ls n.lgId))))
          (upd fs n.fid (fs n.fid + min (vcapOf c chosen) (min n.qty (ls n.lgId))))
          (upd tr chosen.vid (tr chosen.vid + 1))
          (recs ++ [⟨day, chosen.vid, n.lgId, n.fid,
            min (vcapOf c chosen) (min n.qty (ls n.lgId))⟩]) lg
        by_cases hlg : lg = n.lgId
        · subst hlg
          have hone : shippedTo [(⟨day, chosen.vid, n.lgId, n.fid,
              min (vcapOf c chosen) (min n.qty (ls n.lgId))⟩ : LGRec)] n.lgId =
              min (vcapOf c chosen) (min n.qty (ls n.lgId)) := by
            simp [shippedTo]
          constructor
          · rw [ihc, shippedTo_append, hone, upd_self]
            ring
          · refine le_trans ihm ?_
            rw [upd_self]
            linarith
        · have hzero : shippedTo [(⟨day, chosen.vid, n.lgId, n.fid,
              min (vcapOf c chosen) (min n.qty (ls n.lgId))⟩ : LGRec)] lg = 0 := by
            simp [shippedTo, List.filter, Ne.symm hlg]
          constructor
          · rw [ihc, shippedTo_append, hzero, upd_ne _ _ _ hlg]
            ring
          · refine le_trans ihm ?_
            rw [upd_ne _ _ _ hlg]

theorem dispatchNeeds_lstock_nonneg (c : FPSConfig) (day : Nat) :
    ∀ (needs : List Need) (ls fs : Nat → ℚ) (tr : Nat → Nat) (recs : List LGRec),
      (∀ j, 0 ≤ ls j) → ∀ j, 0 ≤ (dispatchNeeds c day needs ls fs tr recs).1 j := by
  intro needs
  induction needs with
  | nil => intro ls fs tr recs h j; exact h j
  | cons n rest ih =>
    intro ls fs tr recs h j
    rw [dispatchNeeds]
    cases hch : dispChoose (dispCands c tr n.lgId) with
    | none => exact ih ls fs tr recs h j
    | some chosen =>
      dsimp only
      by_cases hq : min (vcapOf c chosen) (min n.qty (ls n.lgId)) ≤ 0
      · rw [if_pos hq]
        exact ih ls fs tr recs h j
      · rw [if_neg hq]
        refine ih _ _ _ _ ?_ j
        intro k
        by_cases hk : k = n.lgId
        · subst hk
          rw [upd_self]
          have hle : min (vcapOf c chosen) (min n.qty (ls n.lgId)) ≤ ls n.lgId :=
            le_trans (min_le_right _ _) (min_le_right _ _)
          linarith
        · rw [upd_ne _ _ _ hk]
          exact h k

theorem fpsDay_lstock_step (c : FPSConfig) (st : FPSState) (day : Nat) (lg : Nat) :
    shippedTo (fpsDay c st day).recs lg + (fpsDay c st day).lstock lg =
      shippedTo st.recs lg + st.lstock lg ∧
    (fpsDay c st day).lstock lg ≤ st.lstock lg := by
  unfold fpsDay
  dsimp only
  rcases hd : dispatchNeeds c day
      (sortDescBy Need.urg (computeNeeds c st.lstock (consumeFPS c st.fstock)))
      st.lstock (consumeFPS c st.fstock) (fun _ => 0) st.recs with ⟨ls2, fs2, tr2, recs2⟩
  dsimp only
  have := dispatchNeeds_lstock c day
    (sortDescBy Need.urg (computeNeeds c st.lstock (consumeFPS c st.fstock)))
    st.lstock (consumeFPS c st.fstock) (fun _ => 0) st.recs lg
  rw [hd] at this
  exact this

theorem fpsDay_lstock_nonneg (c : FPSConfig) (st : FPSState) (day : Nat)
    (h : ∀ j, 0 ≤ st.lstock j) : ∀ j, 0 ≤ (fpsDay c st day).lstock j := by
  intro j
  unfold fpsDay
  dsimp only
  rcases hd : dispatchNeeds c day
      (sortDescBy Need.urg (computeNeeds c st.lstock (consumeFPS c st.fstock)))
      st.lstock (consumeFPS c st.fstock) (fun _ => 0) st.recs with ⟨ls2, fs2, tr2, recs2⟩
  dsimp only
  have := dispatchNeeds_lstock_nonneg c day
    (sortDescBy Need.urg (computeNeeds c st.lstock (consumeFPS c st.fstock)))
    st.lstock (consumeFPS c st.fstock) (fun _ => 0) st.recs h j
  rw [hd] at this
  exact this

theorem runFPS_conserve (c : FPSConfig) (lg : Nat) :
    shippedTo (runFPS c).recs lg + (runFPS c).lstock lg = initLG c lg := by
  unfold runFPS
  suffices hgen : ∀ (l : List Nat) (st : FPSState),
      shippedTo (l.foldl (fpsDay c) st).recs lg + (l.foldl (fpsDay c) st).lstock lg =
        shippedTo st.recs lg + st.lstock lg by
    rw [hgen]
    simp [fpsInit, shippedTo]
  intro l
  induction l with
  | nil => intro st; rfl
  | cons d ds ih =>
    intro st
    rw [List.foldl_cons, ih]
    exact (fpsDay_lstock_step c st d lg).1

theorem initLG_nonneg (c : FPSConfig) (h : ∀ r ∈ c.lgRows, 0 ≤ r.initAlloc) (j : Nat) :
    0 ≤ initLG c j := by
  unfold initLG
  suffices hgen : ∀ (rows : List LGRow) (s : Nat → ℚ), (∀ k, 0 ≤ s k) →
      (∀ r ∈ rows, 0 ≤ r.initAlloc) →
      ∀ k, 0 ≤ (rows.foldl (fun s r => upd s r.lgId r.initAlloc) s) k by
    exact hgen c.lgRows _ (fun _ => le_refl 0) h j
  intro rows
  induction rows with
  | nil => intro s hs _ k; exact hs k
  | cons r rest ih =>
    intro s hs hrows k
    rw [List.foldl_cons]
    refine ih _ ?_ (fun x hx => hrows x (List.mem_cons_of_mem r hx)) k
    intro m
    by_cases hm : m = r.lgId
    · subst hm
      rw [upd_self]
      exact hrows r (List.mem_cons_self r rest)
    · rw [upd_ne _ _ _ hm]
      exact hs m

theorem runFPS_lstock_nonneg (c : FPSConfig) (h : ∀ r ∈ c.lgRows, 0 ≤ r.initAlloc) (j : Nat) :
    0 ≤ (runFPS c).lstock j := by
  unfold runFPS
  suffices hgen : ∀ (l : List Nat) (st : FPSState), (∀ k, 0 ≤ st.lstock k) →
      ∀ k, 0 ≤ (l.foldl (fpsDay c) st).lstock k by
    exact hgen _ _ (fun k => initLG_nonneg c h k) j
  intro l
  induction l with
  | nil => intro st hst k; exact hst k
  | cons d ds ih =>
    intro st hst k
    rw [List.foldl_cons]
    exact ih _ (fpsDay_lstock_nonneg c st d hst) k

/-- C10: in the LG→FPS phase a regional point's stock never increases
from one day to the next; over the whole run, shipped + remaining equals
the seeded initial allocation exactly, so (for nonnegative seeds) the
total quantity shipped to an LG's outlets is at most its initial
allocation. -/
theorem regional_stock_never_replenished (c : FPSConfig)
    (hinit : ∀ r ∈ c.lgRows, 0 ≤ r.initAlloc) :
    (∀ (st : FPSState) (day lg : Nat), (fpsDay c st day).lstock lg ≤ st.lstock lg) ∧
      (∀ lg, shippedTo (runFPS c).recs lg + (runFPS c).lstock lg = initLG c lg) ∧
      (∀ lg, shippedTo (runFPS c).recs lg ≤ initLG c lg) := by
  refine ⟨fun st day lg => (fpsDay_lstock_step c st day lg).2, runFPS_conserve c, ?_⟩
  intro lg
  have hc := runFPS_conserve c lg
  have hn := runFPS_lstock_nonneg c hinit lg
  linarith

/-- Witness for `regional_stock_never_replenished` at `F5`. -/
theorem regional_stock_never_replenished_witness :
    (∀ (st : FPSState) (day lg : Nat), (fpsDay F5 st day).lstock lg ≤ st.lstock lg) ∧
      (∀ lg, shippedTo (runFPS F5).recs lg + (runFPS F5).lstock lg = initLG F5 lg) ∧
      (∀ lg, shippedTo (runFPS F5).recs lg ≤ initLG F5 lg) :=
  regional_stock_never_replenished F5 (by with_unfolding_all decide)

/-! ## C9: determinism of the full pipeline -/

/-- C9: the pipeline's three output tables are a function of the input
tables alone: two configurations whose requirement and capacity tables
agree pointwise and whose registries and settings are equal produce
identical outputs, row for row.  (The embedding is a pure function: the
source reads its tables, uses no randomness, and iterates days and rows
in fixed order.) -/
theorem pipeline_deterministic (c1 c2 : CGConfig) (f1 f2 : FPSConfig)
    (hlgs : c1.lgs = c2.lgs) (hreq : ∀ lg d, c1.req lg d = c2.req lg d)
    (hcap : ∀ lg, c1.capacity lg = c2.capacity lg)
    (hnv : c1.numVehicles = c2.numVehicles)
    (hvc : c1.vehicleCapacity = c2.vehicleCapacity)
    (htd : c1.totalDays = c2.totalDays)
    (hmp : c1.maxPreDays = c2.maxPreDays)
    (hf : f1 = f2) :
    runSim c1 f1 = runSim c2 f2 := by
  have hc : c1 = c2 := by
    obtain ⟨l1, r1, k1, n1, v1, t1, m1⟩ := c1
    obtain ⟨l2, r2, k2, n2, v2, t2, m2⟩ := c2
    simp only at hlgs hreq hcap hnv hvc htd hmp
    have hr : r1 = r2 := funext fun lg => funext fun d => hreq lg d
    have hk : k1 = k2 := funext fun lg => hcap lg
    rw [hlgs, hr, hk, hnv, hvc, htd, hmp]
  rw [hc, hf]

/-- Witness for `pipeline_deterministic`: two syntactically separate but
pointwise-equal copies of the same configuration. -/
theorem pipeline_deterministic_witness : runSim K2 F5 = runSim K2 F5 :=
  pipeline_deterministic K2 K2 F5 F5 rfl (fun _ _ => rfl) (fun _ => rfl) rfl rfl rfl rfl rfl

/-! ## C4: stock bounds -/

theorem forall_mem_scanl {α β : Type} (f : β → α → β) (P : β → Prop)
    (hstep : ∀ b a, P b → P (f b a)) :
    ∀ (l : List α) (b : β), P b → ∀ x ∈ List.scanl f b l, P x := by
  intro l
  induction l with
  | nil =>
    intro b hb x hx
    rw [List.scanl_nil] at hx
    rw [List.mem_singleton.mp hx]
    exact hb
  | cons a l2 ih =>
    intro b hb x hx
    rw [List.scanl_cons] at hx
    rcases List.mem_cons.mp hx with rfl | hx2
    · exact hb
    · exact ih (f b a) (hstep b a hb) x hx2

theorem dryServeStep_nonneg (c : CGConfig) (day : Int) (lg : Nat) (s : Nat → ℚ) (trips : Nat)
    (hvc : 0 ≤ c.vehicleCapacity) (hs : ∀ j, 0 ≤ s j) :
    ∀ j, 0 ≤ (dryServeStep c day lg s trips).1 j := by
  intro j
  unfold dryServeStep
  dsimp only
  by_cases hj : j = lg
  · rw [hj, upd_self]
    exact add_nonneg (hs lg) (mul_nonneg (Nat.cast_nonneg _) hvc)
  · rw [upd_ne _ _ _ hj]
    exact hs j

theorem dryServe_nonneg (c : CGConfig) (day : Int) (hvc : 0 ≤ c.vehicleCapacity) :
    ∀ (l : List Nat) (s : Nat → ℚ) (trips : Nat) (s2 : Nat → ℚ) (trips2 : Nat),
      (∀ j, 0 ≤ s j) → dryServe c day l (s, trips) = some (s2, trips2) →
      ∀ j, 0 ≤ s2 j := by
  intro l
  induction l with
  | nil =>
    intro s trips s2 trips2 hs h
    rw [dryServe, Option.some_inj] at h
    rw [show s2 = s from (congrArg Prod.fst h.symm)]
    exact hs
  | cons lg rest ih =>
    intro s trips s2 trips2 hs h
    rw [dryServe] at h
    rcases hstep : dryServeStep c day lg s trips with ⟨sm, tm⟩
    rw [hstep] at h
    dsimp only at h
    by_cases hcond : sm lg + eps < c.req lg day
    · rw [if_pos hcond] at h
      exact absurd h (by simp)
    · rw [if_neg hcond] at h
      refine ih sm tm s2 trips2 ?_ h
      have := dryServeStep_nonneg c day lg s trips hvc hs
      rw [hstep] at this
      exact this

theorem dryPreLoop_nonneg (c : CGConfig) (hvc : 0 ≤ c.vehicleCapacity) :
    ∀ (fuel : Nat) (s fu : Nat → ℚ) (trips : Nat) (cands : List Nat) (idx stall : Nat),
      (∀ j, 0 ≤ s j) → ∀ j, 0 ≤ dryPreLoop c fuel s fu trips cands idx stall j := by
  intro fuel
  induction fuel with
  | zero => intro s fu trips cands idx stall hs j; exact hs j
  | succ n ih =>
    intro s fu trips cands idx stall hs j
    rw [dryPreLoop]
    by_cases h0 : trips = 0 ∨ cands = []
    · rw [if_pos h0]; exact hs j
    · rw [if_neg h0]
      set lg := cands.getD (idx % cands.length) 0 with hlg
      have hupd : ∀ k, 0 ≤ upd s lg (s lg + c.vehicleCapacity) k := by
        intro k
        by_cases hk : k = lg
        · subst hk
          rw [upd_self]
          exact add_nonneg (hs lg) hvc
        · rw [upd_ne _ _ _ hk]
          exact hs k
      by_cases hd : eps < min c.vehicleCapacity (min (fu lg) (freeRoom c s lg))
      · rw [if_pos hd]
        split
        · exact ih _ _ _ _ _ _ hupd j
        · exact ih _ _ _ _ _ _ hupd j
      · rw [if_neg hd]
        split
        · exact ih _ _ _ _ _ _ hs j
        · split
          · exact ih _ _ _ _ _ _ hs j
          · exact hs j

theorem dryPre_nonneg (c : CGConfig) (day : Int) (s : Nat → ℚ) (trips : Nat)
    (hvc : 0 ≤ c.vehicleCapacity) (hs : ∀ j, 0 ≤ s j) :
    ∀ j, 0 ≤ dryPre c day s trips j := by
  unfold dryPre
  exact dryPreLoop_nonneg c hvc _ _ _ _ _ _ _ hs

theorem consume_bounds (c : CGConfig) (day : Int) :
    ∀ (lgs : List Nat) (s : Nat → ℚ),
      ∀ j, 0 ≤ lgs.foldl (fun t lg => upd t lg (max 0 (t lg - c.req lg day))) s j ∨
        lgs.foldl (fun t lg => upd t lg (max 0 (t lg - c.req lg day))) s j = s j := by
  intro lgs
  induction lgs with
  | nil => intro s j; exact Or.inr rfl
  | cons lg rest ih =>
    intro s j
    rw [List.foldl_cons]
    rcases ih (upd s lg (max 0 (s lg - c.req lg day))) j with h | h
    · exact Or.inl h
    · rw [h]
      by_cases hj : j = lg
      · subst hj
        rw [upd_self]
        exact Or.inl (le_max_left 0 _)
      · rw [upd_ne _ _ _ hj]
        exact Or.inr rfl

theorem consume_nonneg (c : CGConfig) (day : Int) (s : Nat → ℚ) (hs : ∀ j, 0 ≤ s j) :
    ∀ j, 0 ≤ consume c day s j := by
  intro j
  unfold consume
  rcases consume_bounds c day c.lgs s j with h | h
  · exact h
  · rw [h]; exact hs j

/-- Day-level nonnegativity of the dry run: a successful dry day maps
nonnegative stocks to nonnegative stocks. -/
theorem dryDay_nonneg (c : CGConfig) (day : Int) (s s2 : Nat → ℚ)
    (hvc : 0 ≤ c.vehicleCapacity) (hs : ∀ j, 0 ≤ s j)
    (h : dryDay c day s = some s2) : ∀ j, 0 ≤ s2 j := by
  unfold dryDay at h
  rcases hserve : (if 1 ≤ day then dryServe c day c.lgs (s, c.numVehicles)
      else some (s, c.numVehicles)) with _ | ⟨s1, trips1⟩
  · rw [hserve] at h
    exact absurd h (by simp)
  · rw [hserve] at h
    dsimp only at h
    have hs1 : ∀ j, 0 ≤ s1 j := by
      by_cases hd : 1 ≤ day
      · rw [if_pos hd] at hserve
        exact dryServe_nonneg c day hvc c.lgs s c.numVehicles s1 trips1 hs hserve
      · rw [if_neg hd, Option.some_inj] at hserve
        rw [show s1 = s from congrArg Prod.fst hserve.symm]
        exact hs
    have hs2m : ∀ j, 0 ≤ (if 0 < trips1 then dryPre c day s1 trips1 else s1) j := by
      by_cases ht : 0 < trips1
      · rw [if_pos ht]
        exact dryPre_nonneg c day s1 trips1 hvc hs1
      · rw [if_neg ht]
        exact hs1
    rw [Option.some_inj] at h
    rw [← h]
    by_cases hd : 1 ≤ day
    · rw [if_pos hd]
      exact consume_nonneg c day _ hs2m
    · rw [if_neg hd]
      exact hs2m

theorem serveLoop_bounds (c : CGConfig) (day : Int) (lg : Nat) (hvc : 0 ≤ c.vehicleCapacity) :
    ∀ (trips : Nat) (vids : List Nat) (s : Nat → ℚ) (deliver : ℚ) (recs : List CGRec),
      (∀ j, 0 ≤ s j ∧ s j ≤ c.capacity j) → 0 ≤ deliver →
      s lg + deliver ≤ c.capacity lg →
      ∀ j, 0 ≤ (serveLoop c day lg trips vids s deliver recs).1 j ∧
        (serveLoop c day lg trips vids s deliver recs).1 j ≤ c.capacity j := by
  intro trips
  induction trips with
  | zero => intro vids s deliver recs hP _ _ j; exact hP j
  | succ t ih =>
    intro vids s deliver recs hP hd0 hcb j
    rw [serveLoop.eq_def]
    dsimp only
    by_cases hd : eps < deliver
    · rw [if_pos hd]
      cases vids with
      | nil => exact hP j
      | cons vid vrest =>
        dsimp only
        have hq0 : 0 ≤ min deliver c.vehicleCapacity := le_min hd0 hvc
        have hqd : min deliver c.vehicleCapacity ≤ deliver := min_le_left _ _
        refine ih vrest _ _ _ ?_ (by linarith) ?_ j
        · intro k
          by_cases hk : k = lg
          · rw [hk, upd_self]
            constructor
            · exact add_nonneg (hP lg).1 hq0
            · linarith [(hP lg).1]
          · rw [upd_ne _ _ _ hk]
            exact hP k
        · rw [upd_self]
          linarith
    · rw [if_neg hd]
      exact hP j

theorem serveDayGo_bounds (c : CGConfig) (day : Int) (hvc : 0 ≤ c.vehicleCapacity) :
    ∀ (lgs : List Nat) (s : Nat → ℚ) (trips : Nat) (vids : List Nat) (recs : List CGRec),
      (∀ j, 0 ≤ s j ∧ s j ≤ c.capacity j) →
      ∀ j, 0 ≤ (serveDayGo c day lgs s trips vids recs).1 j ∧
        (serveDayGo c day lgs s trips vids recs).1 j ≤ c.capacity j := by
  intro lgs
  induction lgs with
  | nil => intro s trips vids recs hP j; exact hP j
  | cons lg rest ih =>
    intro s trips vids recs hP j
    rw [serveDayGo]
    have hd0 : 0 ≤ min (max 0 (c.req lg day - s lg)) (freeRoom c s lg) :=
      le_min (le_max_left 0 _) (le_max_left 0 _)
    have hcb : s lg + min (max 0 (c.req lg day - s lg)) (freeRoom c s lg) ≤ c.capacity lg := by
      have hroom : freeRoom c s lg = c.capacity lg - s lg := by
        unfold freeRoom
        rw [max_eq_right (by linarith [(hP lg).2])]
      have : min (max 0 (c.req lg day - s lg)) (freeRoom c s lg) ≤ c.capacity lg - s lg := by
        rw [← hroom]
        exact min_le_right _ _
      linarith
    have hloop := serveLoop_bounds c day lg hvc trips vids s
      (min (max 0 (c.req lg day - s lg)) (freeRoom c s lg)) recs hP hd0 hcb
    rcases hs : serveLoop c day lg trips vids s
        (min (max 0 (c.req lg day - s lg)) (freeRoom c s lg)) recs with ⟨s2, trips2, vids2, recs2⟩
    rw [hs] at hloop
    dsimp only
    by_cases ht : trips2 = 0
    · rw [if_pos ht]
      exact hloop j
    · rw [if_neg ht]
      exact ih s2 trips2 vids2 recs2 hloop j

theorem prodPreLoop_bounds (c : CGConfig) (day : Int) (hvc : 0 ≤ c.vehicleCapacity) :
    ∀ (fuel : Nat) (s fu : Nat → ℚ) (trips : Nat) (cands : List Nat) (idx stall : Nat)
      (vids : List Nat) (recs : List CGRec),
      (∀ j, 0 ≤ s j ∧ s j ≤ c.capacity j) →
      ∀ j, 0 ≤ (prodPreLoop c day fuel s fu trips cands idx stall vids recs).1 j ∧
        (prodPreLoop c day fuel s fu trips cands idx stall vids recs).1 j ≤ c.capacity j := by
  intro fuel
  induction fuel with
  | zero => intro s fu trips cands idx stall vids recs hP j; exact hP j
  | succ n ih =>
    intro s fu trips cands idx stall vids recs hP j
    rw [prodPreLoop]
    by_cases h0 : trips = 0 ∨ cands = []
    · rw [if_pos h0]; exact hP j
    · rw [if_neg h0]
      set lg := cands.getD (idx % cands.length) 0 with hlg
      by_cases hd : eps < min c.vehicleCapacity (min (fu lg) (freeRoom c s lg))
      · rw [if_pos hd]
        cases vids with
        | nil => exact hP j
        | cons vid vrest =>
          dsimp only
          have hroom : freeRoom c s lg = c.capacity lg - s lg := by
            unfold freeRoom
            rw [max_eq_right (by linarith [(hP lg).2])]
          have hq0 : 0 ≤ min (min c.vehicleCapacity (min (fu lg) (freeRoom c s lg)))
              c.vehicleCapacity := le_min (le_of_lt (lt_trans eps_pos hd)) hvc
          have hqr : min (min c.vehicleCapacity (min (fu lg) (freeRoom c s lg)))
              c.vehicleCapacity ≤ c.capacity lg - s lg := by
            rw [← hroom]
            exact le_trans (min_le_left _ _) (le_trans (min_le_right _ _) (min_le_right _ _))
          have hP2 : ∀ k, 0 ≤ upd s lg (s lg + min (min c.vehicleCapacity
              (min (fu lg) (freeRoom c s lg))) c.vehicleCapacity) k ∧
              upd s lg (s lg + min (min c.vehicleCapacity
                (min (fu lg) (freeRoom c s lg))) c.vehicleCapacity) k ≤ c.capacity k := by
            intro k
            by_cases hk : k = lg
            · rw [hk, upd_self]
              exact ⟨add_nonneg (hP lg).1 hq0, by linarith⟩
            · rw [upd_ne _ _ _ hk]
              exact hP k
          split
          · exact ih _ _ _ _ _ _ _ _ hP2 j
          · exact ih _ _ _ _ _ _ _ _ hP2 j
      · rw [if_neg hd]
        split
        · exact ih _ _ _ _ _ _ _ _ hP j
        · split
          · exact ih _ _ _ _ _ _ _ _ hP j
          · exact hP j

theorem prodPre_bounds (c : CGConfig) (day : Int) (hvc : 0 ≤ c.vehicleCapacity)
    (s : Nat → ℚ) (trips : Nat) (vids : List Nat) (recs : List CGRec)
    (hP : ∀ j, 0 ≤ s j ∧ s j ≤ c.capacity j) :
    ∀ j, 0 ≤ (prodPre c day s trips vids recs).1 j ∧
      (prodPre c day s trips vids recs).1 j ≤ c.capacity j := by
  unfold prodPre
  exact prodPreLoop_bounds c day hvc _ _ _ _ _ _ _ _ _ hP

theorem consume_preserves (c : CGConfig) (day : Int)
    (hreq : ∀ lg, 0 ≤ c.req lg day) (hcap : ∀ j, 0 ≤ c.capacity j) :
    ∀ (lgs : List Nat) (s : Nat → ℚ), (∀ j, 0 ≤ s j ∧ s j ≤ c.capacity j) →
      ∀ j, 0 ≤ lgs.foldl (fun t lg => upd t lg (max 0 (t lg - c.req lg day))) s j ∧
        lgs.foldl (fun t lg => upd t lg (max 0 (t lg - c.req lg day))) s j ≤ c.capacity j := by
  intro lgs
  induction lgs with
  | nil => intro s hP j; exact hP j
  | cons lg rest ih =>
    intro s hP j
    rw [List.foldl_cons]
    refine ih _ ?_ j
    intro k
    by_cases hk : k = lg
    · rw [hk, upd_self]
      constructor
      · exact le_max_left 0 _
      · have h1 := (hP lg).2
        have h2 := hreq lg
        have h3 := hcap lg
        rw [max_le_iff]
        constructor <;> linarith
    · rw [upd_ne _ _ _ hk]
      exact hP k

theorem prodDay_preserves (c : CGConfig) (hvc : 0 ≤ c.vehicleCapacity)
    (hcap : ∀ j, 0 ≤ c.capacity j) (hreq : ∀ lg d, 0 ≤ c.req lg d)
    (st : CGState) (day : Int) (hP : ∀ j, 0 ≤ st.stock j ∧ st.stock j ≤ c.capacity j) :
    ∀ j, 0 ≤ (prodDay c st day).stock j ∧ (prodDay c st day).stock j ≤ c.capacity j := by
  unfold prodDay
  dsimp only
  rcases hs : (if 1 ≤ day then
      serveDay c day st.stock c.numVehicles ((List.range c.numVehicles).map (fun i => i + 1)) st.recs
    else (st.stock, c.numVehicles, (List.range c.numVehicles).map (fun i => i + 1), st.recs))
    with ⟨s1, trips1, vids1, recs1⟩
  have hP1 : ∀ j, 0 ≤ s1 j ∧ s1 j ≤ c.capacity j := by
    by_cases hd : 1 ≤ day
    · rw [if_pos hd] at hs
      intro j
      have := serveDayGo_bounds c day hvc
        (sortDescBy (fun lg => c.req lg day - st.stock lg) c.lgs) st.stock c.numVehicles
        ((List.range c.numVehicles).map (fun i => i + 1)) st.recs hP j
      rw [show serveDayGo c day (sortDescBy (fun lg => c.req lg day - st.stock lg) c.lgs)
          st.stock c.numVehicles ((List.range c.numVehicles).map (fun i => i + 1)) st.recs
          = serveDay c day st.stock c.numVehicles
            ((List.range c.numVehicles).map (fun i => i + 1)) st.recs from rfl, hs] at this
      exact this
    · rw [if_neg hd] at hs
      have : s1 = st.stock := (congrArg (fun p => p.1) hs).symm
      rw [this]
      exact hP
  rcases hp : (if 0 < trips1 then prodPre c day s1 trips1 vids1 recs1
      else (s1, vids1, recs1)) with ⟨s2, vids2, recs2⟩
  have hP2 : ∀ j, 0 ≤ s2 j ∧ s2 j ≤ c.capacity j := by
    by_cases ht : 0 < trips1
    · rw [if_pos ht] at hp
      intro j
      have := prodPre_bounds c day hvc s1 trips1 vids1 recs1 hP1 j
      rw [hp] at this
      exact this
    · rw [if_neg ht] at hp
      have : s2 = s1 := (congrArg (fun p => p.1) hp).symm
      rw [this]
      exact hP1
  dsimp only
  by_cases hd : 1 ≤ day
  · rw [if_pos hd]
    exact consume_preserves c day (fun lg => hreq lg day) hcap c.lgs s2 hP2
  · rw [if_neg hd]
    exact hP2

theorem prodCGStates_bounds (c : CGConfig) (preDays : Nat) (hvc : 0 ≤ c.vehicleCapacity)
    (hcap : ∀ j, 0 ≤ c.capacity j) (hreq : ∀ lg d, 0 ≤ c.req lg d) :
    ∀ st ∈ prodCGStates c preDays, ∀ j, 0 ≤ st.stock j ∧ st.stock j ≤ c.capacity j := by
  unfold prodCGStates
  refine forall_mem_scanl (prodDay c)
    (fun st => ∀ j, 0 ≤ st.stock j ∧ st.stock j ≤ c.capacity j) ?_ _ _ ?_
  · intro st day hP
    exact prodDay_preserves c hvc hcap hreq st day hP
  · intro j
    exact ⟨le_refl 0, hcap j⟩

theorem fpsMaxCapGo_not_mem :
    ∀ (rows : List FPSRow) (s : Nat → ℚ) (j : Nat), j ∉ rows.map FPSRow.fid →
      rows.foldl (fun m r => upd m r.fid r.maxCap) s j = s j := by
  intro rows
  induction rows with
  | nil => intro s j _; rfl
  | cons r rest ih =>
    intro s j hj
    rw [List.map_cons, List.mem_cons, not_or] at hj
    rw [List.foldl_cons, ih _ j hj.2, upd_ne _ _ _ hj.1]

theorem fpsMaxCap_eq (c : FPSConfig) (hnd : (c.fps.map FPSRow.fid).Nodup) :
    ∀ r ∈ c.fps, fpsMaxCap c r.fid = r.maxCap := by
  unfold fpsMaxCap
  suffices hgen : ∀ (rows : List FPSRow) (s : Nat → ℚ), (rows.map FPSRow.fid).Nodup →
      ∀ r ∈ rows, rows.foldl (fun m r => upd m r.fid r.maxCap) s r.fid = r.maxCap by
    exact hgen c.fps _ hnd
  intro rows
  induction rows with
  | nil => intro s _ r hr; exact absurd hr (List.not_mem_nil r)
  | cons r2 rest ih =>
    intro s hnd2 r hr
    rw [List.map_cons, List.nodup_cons] at hnd2
    rw [List.foldl_cons]
    rcases List.mem_cons.mp hr with rfl | hmem
    · rw [fpsMaxCapGo_not_mem rest _ r.fid hnd2.1, upd_self]
    · exact ih _ hnd2.2 r hmem

theorem fpsMaxCap_nonneg (c : FPSConfig) (hmc : ∀ r ∈ c.fps, 0 ≤ r.maxCap) (j : Nat) :
    0 ≤ fpsMaxCap c j := by
  unfold fpsMaxCap
  suffices hgen : ∀ (rows : List FPSRow) (s : Nat → ℚ), (∀ k, 0 ≤ s k) →
      (∀ r ∈ rows, 0 ≤ r.maxCap) →
      ∀ k, 0 ≤ (rows.foldl (fun m r => upd m r.fid r.maxCap) s) k by
    exact hgen c.fps _ (fun _ => le_refl 0) hmc j
  intro rows
  induction rows with
  | nil => intro s hs _ k; exact hs k
  | cons r rest ih =>
    intro s hs hrows k
    rw [List.foldl_cons]
    refine ih _ ?_ (fun x hx => hrows x (List.mem_cons_of_mem r hx)) k
    intro m
    by_cases hm : m = r.fid
    · rw [hm, upd_self]
      exact hrows r (List.mem_cons_self r rest)
    · rw [upd_ne _ _ _ hm]
      exact hs m

theorem consumeFPS_preserves (c : FPSConfig) :
    ∀ (rows : List FPSRow) (fs : Nat → ℚ), (∀ r ∈ rows, 0 ≤ dailyDemand r) →
      (∀ j, 0 ≤ fs j ∧ fs j ≤ fpsMaxCap c j) →
      ∀ j, 0 ≤ (rows.foldl (fun t r => upd t r.fid (max 0 (t r.fid - dailyDemand r))) fs) j ∧
        (rows.foldl (fun t r => upd t r.fid (max 0 (t r.fid - dailyDemand r))) fs) j ≤
          fpsMaxCap c j := by
  intro rows
  induction rows with
  | nil => intro fs _ hP j; exact hP j
  | cons r rest ih =>
    intro fs hdd hP j
    rw [List.foldl_cons]
    refine ih _ (fun x hx => hdd x (List.mem_cons_of_mem r hx)) ?_ j
    intro k
    by_cases hk : k = r.fid
    · rw [hk, upd_self]
      have h1 := (hP r.fid).1
      have h2 := (hP r.fid).2
      have h3 := hdd r (List.mem_cons_self r rest)
      constructor
      · exact le_max_left 0 _
      · rw [max_le_iff]
        have h4 : (0:ℚ) ≤ fpsMaxCap c r.fid := le_trans h1 h2
        constructor <;> linarith
    · rw [upd_ne _ _ _ hk]
      exact hP k

theorem insertDescBy_perm {α : Type} (key : α → ℚ) (x : α) :
    ∀ l : List α, (insertDescBy key x l).Perm (x :: l) := by
  intro l
  induction l with
  | nil => exact List.Perm.refl _
  | cons y ys ih =>
    rw [insertDescBy]
    by_cases h : key y < key x
    · rw [if_pos h]
    · rw [if_neg h]
      exact List.Perm.trans (List.Perm.cons y ih) (List.Perm.swap x y ys)

theorem sortDescBy_perm {α : Type} (key : α → ℚ) (l : List α) :
    (sortDescBy key l).Perm l := by
  unfold sortDescBy
  suffices hgen : ∀ (l acc : List α),
      (l.foldl (fun a x => insertDescBy key x a) acc).Perm (acc ++ l) by
    simpa using hgen l []
  intro l
  induction l with
  | nil => intro acc; simp
  | cons x xs ih =>
    intro acc
    rw [List.foldl_cons]
    refine List.Perm.trans (ih (insertDescBy key x acc)) ?_
    refine List.Perm.trans (List.Perm.append_right xs (insertDescBy_perm key x acc)) ?_
    exact List.Perm.symm List.perm_middle

theorem computeNeeds_fid_sublist (c : FPSConfig) (ls fs : Nat → ℚ) :
    ∀ (rows : List FPSRow) (acc : List Need),
      ((rows.foldl (needStep c ls fs) acc).map Need.fid).Sublist
        (acc.map Need.fid ++ rows.map FPSRow.fid) := by
  intro rows
  induction rows with
  | nil => intro acc; simp
  | cons r rest ih =>
    intro acc
    rw [List.foldl_cons]
    have hstep : (needStep c ls fs acc r).map Need.fid = acc.map Need.fid ∨
        (needStep c ls fs acc r).map Need.fid = acc.map Need.fid ++ [r.fid] := by
      simp only [needStep]
      split
      · split
        · right; simp
        · left; rfl
      · left; rfl
    rcases hstep with h | h
    · have h1 := ih (needStep c ls fs acc r)
      rw [h] at h1
      refine h1.trans ?_
      rw [List.map_cons]
      exact List.Sublist.append_left (List.sublist_cons_of_sublist _ (List.Sublist.refl _)) _
    · have h1 := ih (needStep c ls fs acc r)
      rw [h, List.append_assoc, List.singleton_append] at h1
      rw [List.map_cons]
      exact h1

theorem computeNeeds_room (c : FPSConfig) (hnd : (c.fps.map FPSRow.fid).Nodup)
    (ls fs : Nat → ℚ) :
    ∀ e ∈ computeNeeds c ls fs, fs e.fid + e.qty ≤ fpsMaxCap c e.fid := by
  unfold computeNeeds
  suffices hgen : ∀ (rows : List FPSRow) (acc : List Need), (∀ r ∈ rows, r ∈ c.fps) →
      (∀ e ∈ acc, fs e.fid + e.qty ≤ fpsMaxCap c e.fid) →
      ∀ e ∈ rows.foldl (needStep c ls fs) acc, fs e.fid + e.qty ≤ fpsMaxCap c e.fid by
    exact fun e he => hgen c.fps [] (fun r hr => hr) (by simp) e he
  intro rows
  induction rows with
  | nil => intro acc _ hacc e he; exact hacc e he
  | cons r rest ih =>
    intro acc hsub hacc e he
    rw [List.foldl_cons] at he
    refine ih _ (fun x hx => hsub x (List.mem_cons_of_mem r hx)) ?_ e he
    intro m hm
    simp only [needStep] at hm
    split at hm
    · split at hm
      · rcases List.mem_append.mp hm with h2 | h2
        · exact hacc m h2
        · rw [List.mem_singleton.mp h2]
          dsimp only
          rw [fpsMaxCap_eq c hnd r (hsub r (List.mem_cons_self r rest))]
          have := min_le_left (r.maxCap - fs r.fid) (ls r.lgId)
          linarith
      · exact hacc m hm
    · exact hacc m hm

theorem dispatchNeeds_fstock (c : FPSConfig) (day : Nat) :
    ∀ (needs : List Need) (ls fs : Nat → ℚ) (tr : Nat → Nat) (recs : List LGRec),
      (∀ j, 0 ≤ fs j ∧ fs j ≤ fpsMaxCap c j) →
      (∀ e ∈ needs, fs e.fid + e.qty ≤ fpsMaxCap c e.fid) →
      (needs.map Need.fid).Nodup →
      ∀ j, 0 ≤ (dispatchNeeds c day needs ls fs tr recs).2.1 j ∧
        (dispatchNeeds c day needs ls fs tr recs).2.1 j ≤ fpsMaxCap c j := by
  intro needs
  induction needs with
  | nil => intro ls fs tr recs hF _ _ j; exact hF j
  | cons n rest ih =>
    intro ls fs tr recs hF hroom hnd j
    rw [dispatchNeeds]
    rw [List.map_cons, List.nodup_cons] at hnd
    cases hch : dispChoose (dispCands c tr n.lgId) with
    | none =>
      exact ih ls fs tr recs hF (fun e he => hroom e (List.mem_cons_of_mem n he)) hnd.2 j
    | some chosen =>
      dsimp only
      by_cases hq : min (vcapOf c chosen) (min n.qty (ls n.lgId)) ≤ 0
      · rw [if_pos hq]
        exact ih ls fs tr recs hF (fun e he => hroom e (List.mem_cons_of_mem n he)) hnd.2 j
      · rw [if_neg hq]
        push_neg at hq
        have hqn : min (vcapOf c chosen) (min n.qty (ls n.lgId)) ≤ n.qty :=
          le_trans (min_le_right _ _) (min_le_left _ _)
        have hroomn := hroom n (List.mem_cons_self n rest)
        refine ih _ _ _ _ ?_ ?_ hnd.2 j
        · intro k
          by_cases hk : k = n.fid
          · rw [hk, upd_self]
            have h1 := (hF n.fid).1
            exact ⟨by linarith, by linarith⟩
          · rw [upd_ne _ _ _ hk]
            exact hF k
        · intro e he
          have hne : e.fid ≠ n.fid := by
            intro hEq
            exact hnd.1 (hEq ▸ List.mem_map_of_mem Need.fid he)
          rw [upd_ne _ _ _ hne]
          exact hroom e (List.mem_cons_of_mem n he)

theorem fpsDay_fstock_bounds (c : FPSConfig)
    (hdd : ∀ r ∈ c.fps, 0 ≤ dailyDemand r) (hnd : (c.fps.map FPSRow.fid).Nodup)
    (st : FPSState) (day : Nat)
    (hQ : ∀ j, 0 ≤ st.fstock j ∧ st.fstock j ≤ fpsMaxCap c j) :
    ∀ j, 0 ≤ (fpsDay c st day).fstock j ∧ (fpsDay c st day).fstock j ≤ fpsMaxCap c j := by
  have hfs1 : ∀ j, 0 ≤ consumeFPS c st.fstock j ∧
      consumeFPS c st.fstock j ≤ fpsMaxCap c j := by
    unfold consumeFPS
    exact consumeFPS_preserves c c.fps st.fstock hdd hQ
  have hroom0 := computeNeeds_room c hnd st.lstock (consumeFPS c st.fstock)
  have hroomS : ∀ e ∈ sortDescBy Need.urg (computeNeeds c st.lstock (consumeFPS c st.fstock)),
      consumeFPS c st.fstock e.fid + e.qty ≤ fpsMaxCap c e.fid := fun e he =>
    hroom0 e ((sortDescBy_perm Need.urg _).mem_iff.mp he)
  have hndS : (((sortDescBy Need.urg
      (computeNeeds c st.lstock (consumeFPS c st.fstock))).map Need.fid)).Nodup := by
    have hsub := computeNeeds_fid_sublist c st.lstock (consumeFPS c st.fstock) c.fps []
    rw [List.map_nil, List.nil_append] at hsub
    exact (((sortDescBy_perm Need.urg _).map Need.fid).nodup_iff).mpr (hsub.nodup hnd)
  unfold fpsDay
  dsimp only
  rcases hd : dispatchNeeds c day
      (sortDescBy Need.urg (computeNeeds c st.lstock (consumeFPS c st.fstock)))
      st.lstock (consumeFPS c st.fstock) (fun _ => 0) st.recs with ⟨ls2, fs2, tr2, recs2⟩
  dsimp only
  intro j
  have := dispatchNeeds_fstock c day
    (sortDescBy Need.urg (computeNeeds c st.lstock (consumeFPS c st.fstock)))
    st.lstock (consumeFPS c st.fstock) (fun _ => 0) st.recs hfs1 hroomS hndS j
  rw [hd] at this
  exact this

theorem fpsStates_bounds (c : FPSConfig)
    (hinit : ∀ r ∈ c.lgRows, 0 ≤ r.initAlloc)
    (hdd : ∀ r ∈ c.fps, 0 ≤ dailyDemand r)
    (hmc : ∀ r ∈ c.fps, 0 ≤ r.maxCap)
    (hnd : (c.fps.map FPSRow.fid).Nodup) :
    ∀ st ∈ fpsStates c, (∀ j, 0 ≤ st.lstock j) ∧
      (∀ j, 0 ≤ st.fstock j ∧ st.fstock j ≤ fpsMaxCap c j) := by
  unfold fpsStates
  refine forall_mem_scanl (fpsDay c) (fun st => (∀ j, 0 ≤ st.lstock j) ∧
      (∀ j, 0 ≤ st.fstock j ∧ st.fstock j ≤ fpsMaxCap c j)) ?_ _ _ ?_
  · intro st d hQ
    exact ⟨fpsDay_lstock_nonneg c st d hQ.1, fpsDay_fstock_bounds c hdd hnd st d hQ.2⟩
  · exact ⟨fun j => initLG_nonneg c hinit j,
      fun j => ⟨le_refl 0, fpsMaxCap_nonneg c hmc j⟩⟩

/-- C4 (amended): with nonnegative inputs, all stocks stay nonnegative
in all three runs; the production source-tier stock stays within each
LG's storage capacity; and the outlet-tier stock of every outlet stays
within its maximum holding capacity.  (The dry feasibility run can
exceed a regional capacity — see the counterexample — and the outlet
tier never consults the storage capacity, its regional stock being
bounded instead by the initial allocation.) -/
theorem stock_bounds (c : CGConfig) (f : FPSConfig) (preDays : Nat)
    (hvc : 0 ≤ c.vehicleCapacity) (hcap : ∀ j, 0 ≤ c.capacity j)
    (hreq : ∀ lg d, 0 ≤ c.req lg d)
    (hinit : ∀ r ∈ f.lgRows, 0 ≤ r.initAlloc)
    (hmd : ∀ r ∈ f.fps, 0 ≤ r.monthlyDemand)
    (hmc : ∀ r ∈ f.fps, 0 ≤ r.maxCap)
    (hnd : (f.fps.map FPSRow.fid).Nodup) :
    (∀ (day : Int) (s s2 : Nat → ℚ), (∀ j, 0 ≤ s j) → dryDay c day s = some s2 →
      ∀ j, 0 ≤ s2 j) ∧
    (∀ st ∈ prodCGStates c preDays, ∀ j, 0 ≤ st.stock j ∧ st.stock j ≤ c.capacity j) ∧
    (∀ st ∈ fpsStates f, (∀ j, 0 ≤ st.lstock j ∧ 0 ≤ st.fstock j) ∧
      ∀ r ∈ f.fps, st.fstock r.fid ≤ r.maxCap) := by
  have hdd : ∀ r ∈ f.fps, 0 ≤ dailyDemand r := by
    intro r hr
    unfold dailyDemand
    exact div_nonneg (hmd r hr) (by norm_num)
  refine ⟨fun day s s2 hs h => dryDay_nonneg c day s s2 hvc hs h,
    prodCGStates_bounds c preDays hvc hcap hreq, ?_⟩
  intro st hst
  obtain ⟨hL, hF⟩ := fpsStates_bounds f hinit hdd hmc hnd st hst
  refine ⟨fun j => ⟨hL j, (hF j).1⟩, ?_⟩
  intro r hr
  have hb := (hF r.fid).2
  rw [fpsMaxCap_eq f hnd r hr] at hb
  exact hb

/-- C4 counterexample: on `K4` (one LG, storage capacity 1 t,
requirement 1 t on day 1) the feasibility search's dry run ends day 1
with 10.5 t in stock — a whole 11.5 t vehicle load was delivered for a
1 t need into 1 t of room — so a regional point's stock does exceed its
storage capacity during the source-tier dry simulation. -/
theorem stock_exceeds_capacity_counterexample :
    (dryDays K4 (simDaysList K4 0) (fun _ => 0)).map (fun s => s 1) = some (21/2) ∧
      K4.capacity 1 = 1 ∧ ¬ ((21:ℚ)/2 ≤ 1) :=
  ⟨by with_unfolding_all decide, rfl, by norm_num⟩

/-- Witness for `stock_bounds` at `K2` and `F5`. -/
theorem stock_bounds_witness :
    (∀ (day : Int) (s s2 : Nat → ℚ), (∀ j, 0 ≤ s j) → dryDay K2 day s = some s2 →
      ∀ j, 0 ≤ s2 j) ∧
    (∀ st ∈ prodCGStates K2 0, ∀ j, 0 ≤ st.stock j ∧ st.stock j ≤ K2.capacity j) ∧
    (∀ st ∈ fpsStates F5, (∀ j, 0 ≤ st.lstock j ∧ 0 ≤ st.fstock j) ∧
      ∀ r ∈ F5.fps, st.fstock r.fid ≤ r.maxCap) :=
  stock_bounds K2 F5 0 (by with_unfolding_all decide)
    (fun j => by norm_num [K2])
    (fun lg d => by simp only [K2]; split <;> norm_num)
    (by with_unfolding_all decide) (by with_unfolding_all decide)
    (by with_unfolding_all decide) (by decide)

end FCI
